import Mathlib

/-!
Verification of the SyncWatcher core against its specification.

The development shallow-embeds the relevant Rust functions of
`src-tauri/src/input_validation.rs`, `src-tauri/src/lib.rs` and
`src-tauri/src/sync_engine/engine.rs`:

* pure functions become Lean functions;
* filesystem and I/O effects are passed in explicitly as environment
  functions (file-read outcomes, canonicalization, metadata, removal
  results) and effect logs are returned alongside the Rust return value;
* Rust machine integers (`u64`, `usize`) are modelled as `Nat`; no claim
  involves arithmetic anywhere near overflow;
* `SystemTime` values are modelled as `Int` Unix-millisecond stamps,
  which preserves the total order used by the engine's comparisons.

Behaviour of external library calls (`globset` matching, `char`
classification, UTF-8 validation) is modelled by explicit executable
definitions, documented at each definition.
-/

namespace SyncWatcher

/-! ## UTF-8 byte length

Rust `str::len` returns the number of UTF-8 bytes, not the number of
characters.  `utf8Size` is the standard UTF-8 encoded size of one scalar
value. -/

def utf8Size (c : Char) : Nat :=
  if c.toNat < 0x80 then 1
  else if c.toNat < 0x800 then 2
  else if c.toNat < 0x10000 then 3
  else 4

def utf8Len (s : List Char) : Nat :=
  (s.map utf8Size).sum

/-! ## Input validator (`input_validation.rs`)

`rustIsAlphanumeric` models Rust `char::is_alphanumeric`
(`is_alphabetic() || is_numeric()`, i.e. Unicode Alphabetic or general
category N) restricted to code points below 0x100, which is the fragment
exercised in this development; all code points of the Latin-1 block are
classified exactly as Unicode does (`0xAA ª`, `0xB5 µ`, `0xBA º`,
`0xC0-0xD6`, `0xD8-0xF6`, `0xF8-0xFF` are Alphabetic; `0xB2 ²`, `0xB3 ³`,
`0xB9 ¹`, `0xBC ¼`, `0xBD ½`, `0xBE ¾` are category No). -/

def rustIsAlphanumeric (c : Char) : Bool :=
  let n := c.toNat
  (0x30 ≤ n && n ≤ 0x39) ||
  (0x41 ≤ n && n ≤ 0x5A) ||
  (0x61 ≤ n && n ≤ 0x7A) ||
  n = 0xAA || n = 0xB2 || n = 0xB3 || n = 0xB5 || n = 0xB9 || n = 0xBA ||
  n = 0xBC || n = 0xBD || n = 0xBE ||
  (0xC0 ≤ n && n ≤ 0xD6) ||
  (0xD8 ≤ n && n ≤ 0xF6) ||
  (0xF8 ≤ n && n ≤ 0xFF)

/-- Embedding of `input_validation::validate_task_id`.  The length check
is on `task_id.len()`, i.e. UTF-8 bytes; the character check is Rust
`char::is_alphanumeric` (Unicode) or `-` or `_`. -/
def validate_task_id (task_id : String) : Except String Unit :=
  if task_id.data.isEmpty then
    .error "Task ID cannot be empty"
  else if utf8Len task_id.data > 100 then
    .error "Task ID too long"
  else if !(task_id.data.all fun c => rustIsAlphanumeric c || c = '-' || c = '_') then
    .error "Task ID contains invalid characters"
  else
    .ok ()

/-- The character class `[A-Za-z0-9_-]` named by the specification. -/
def specTaskIdChar (c : Char) : Bool :=
  ('A' ≤ c && c ≤ 'Z') || ('a' ≤ c && c ≤ 'z') || ('0' ≤ c && c ≤ '9') ||
  c = '-' || c = '_'

/-- The acceptance predicate exactly as the specification words it:
1 to 100 characters, each in `[A-Za-z0-9_-]`. -/
def specTaskIdOk (s : String) : Bool :=
  1 ≤ s.data.length && s.data.length ≤ 100 && s.data.all specTaskIdChar

/-! ## Sync slot admission (`lib.rs`)

The set of actively syncing task ids (`state.syncing_tasks`, a
`HashSet<String>`) is modelled as a duplicate-free list; `HashSet::insert`
returns whether the value was newly inserted. -/

def RUNTIME_SYNC_MAX_CONCURRENCY : Nat := 2

/-- Embedding of `acquire_sync_slot`: `syncing.insert(task_id)`.  Returns
the updated set and the boolean result of the insert.  There is no
capacity check on this path. -/
def acquire_sync_slot (task_id : String) (syncing : List String) :
    List String × Bool :=
  if task_id ∈ syncing then (syncing, false) else (syncing ++ [task_id], true)

inductive RuntimeSyncAcquireResult where
  | Acquired
  | AlreadySyncing
  | CapacityReached
deriving DecidableEq, Repr

/-- Embedding of `acquire_runtime_sync_slot`: membership check, then the
capacity check against `RUNTIME_SYNC_MAX_CONCURRENCY`, then insert. -/
def acquire_runtime_sync_slot (task_id : String) (syncing : List String) :
    List String × RuntimeSyncAcquireResult :=
  if task_id ∈ syncing then (syncing, .AlreadySyncing)
  else if syncing.length ≥ RUNTIME_SYNC_MAX_CONCURRENCY then
    (syncing, .CapacityReached)
  else (syncing ++ [task_id], .Acquired)

/-! ## Sync engine data model (`sync_engine/types.rs`, `sync_engine/engine.rs`)

Relative paths are modelled as lists of path components (`PathBuf` holding
a relative path).  `modified` is an `Int` Unix-millisecond stamp standing
for `SystemTime`; the engine only ever compares these values. -/

abbrev RelPath := List String

structure FileMetadata where
  path : RelPath
  size : Nat
  modified : Int
  created : Option Int
  is_file : Bool
deriving DecidableEq, Repr

structure ConflictFileSnapshot where
  size : Nat
  modified_unix_ms : Option Int
  created_unix_ms : Option Int
deriving DecidableEq, Repr

/-- Embedding of `SyncEngine::system_time_to_unix_ms`:
`duration_since(UNIX_EPOCH)` fails for times before the epoch, giving
`None`. -/
def system_time_to_unix_ms (value : Option Int) : Option Int :=
  value.bind fun t => if 0 ≤ t then some t else none

/-- Embedding of `SyncEngine::snapshot_from_metadata`. -/
def snapshot_from_metadata (meta : FileMetadata) : ConflictFileSnapshot :=
  { size := meta.size
    modified_unix_ms := system_time_to_unix_ms (some meta.modified)
    created_unix_ms := system_time_to_unix_ms meta.created }

structure SyncOptions where
  checksum_mode : Bool
  preserve_permissions : Bool
  preserve_times : Bool
  verify_after_copy : Bool
  exclude_patterns : List String
deriving Repr

inductive FileDiffKind where
  | New
  | Modified
deriving DecidableEq, Repr

structure FileDiff where
  path : RelPath
  kind : FileDiffKind
  source_size : Option Nat
  target_size : Option Nat
deriving DecidableEq, Repr

/-- Conflict candidate as constructed in `compare_dirs_internal` (the
absolute `source_path`/`target_path` fields are root-joined copies of
`path` and are omitted; `path` and the two snapshots carry all content the
claims refer to). -/
structure TargetNewerConflictCandidate where
  path : RelPath
  source : ConflictFileSnapshot
  target : ConflictFileSnapshot
deriving DecidableEq, Repr

structure DryRunResult where
  diffs : List FileDiff
  total_files : Nat
  files_to_copy : Nat
  files_modified : Nat
  bytes_to_copy : Nat
deriving Repr

/-! ## Difference engine (`compare_dirs_internal`)

The scans of source and target are inputs: `sourceFiles` is the list
produced by `read_directory` on the source root, and the target scan is
consumed only through its path-keyed `HashMap`, modelled as a lookup
function `tgtMap`.  `hashes p` gives the pair of xxHash64 values
`calculate_checksum` would compute for the source and target files at
relative path `p` (the hex formatting of equal 64-bit values is equal and
of distinct values distinct, so hash values are compared directly). -/

/-- The `HashMap` built from a scan: last insert wins. -/
def lookupMeta (files : List FileMetadata) (p : RelPath) : Option FileMetadata :=
  files.reverse.find? fun f => f.path == p

inductive EntryOutcome where
  | diff (d : FileDiff)
  | conflict (c : TargetNewerConflictCandidate)
  | nothing
deriving DecidableEq, Repr

/-- The body of the `for (path, source_meta) in &source_map` loop of
`compare_dirs_internal`, for one source entry. -/
def compareEntry (opts : SyncOptions) (hashes : RelPath → Nat × Nat)
    (sm : FileMetadata) (tm? : Option FileMetadata) : EntryOutcome :=
  match tm? with
  | some tm =>
    if sm.is_file then
      if sm.modified < tm.modified then
        .conflict
          { path := sm.path
            source := snapshot_from_metadata sm
            target := snapshot_from_metadata tm }
      else
        let needs0 : Bool := sm.size != tm.size || decide (tm.modified < sm.modified)
        let needs : Bool :=
          if !needs0 && opts.checksum_mode then
            (hashes sm.path).1 != (hashes sm.path).2
          else needs0
        if needs then
          .diff
            { path := sm.path, kind := .Modified
              source_size := some sm.size, target_size := some tm.size }
        else .nothing
    else .nothing
  | none =>
    if sm.is_file then
      .diff
        { path := sm.path, kind := .New
          source_size := some sm.size, target_size := none }
    else .nothing

def outcomeDiff : EntryOutcome → Option FileDiff
  | .diff d => some d
  | _ => none

def outcomeConflict : EntryOutcome → Option TargetNewerConflictCandidate
  | .conflict c => some c
  | _ => none

/-- `compare_dirs_internal` with the target scan abstracted to its lookup
map.  Iterates the source entries, collecting diffs and target-newer
conflict candidates and the aggregate counters. -/
def compareWith (opts : SyncOptions) (hashes : RelPath → Nat × Nat)
    (sourceFiles : List FileMetadata) (tgtMap : RelPath → Option FileMetadata) :
    DryRunResult × List TargetNewerConflictCandidate :=
  let outcomes := sourceFiles.map fun sm =>
    compareEntry opts hashes sm (tgtMap sm.path)
  let diffs := outcomes.filterMap outcomeDiff
  let conflicts := outcomes.filterMap outcomeConflict
  ( { diffs := diffs
      total_files := (sourceFiles.filter fun f => f.is_file).length
      files_to_copy := (diffs.filter fun d =>
        d.kind == .New || d.kind == .Modified).length
      files_modified := (diffs.filter fun d => d.kind == .Modified).length
      bytes_to_copy := (diffs.map fun d => d.source_size.getD 0).sum }
  , conflicts )

/-- Embedding of `compare_dirs_internal` proper: the target scan list is
turned into its map. -/
def compare_dirs_internal (opts : SyncOptions) (hashes : RelPath → Nat × Nat)
    (sourceFiles targetFiles : List FileMetadata) :
    DryRunResult × List TargetNewerConflictCandidate :=
  compareWith opts hashes sourceFiles (lookupMeta targetFiles)

/-! ## Copy pipeline (`copy_file_chunked`, `sync_files`)

Per-file I/O is abstracted by a `CopyEnv`: an optional I/O error hit
before the verification step (directory creation, open, create, chunk
read/write, permission or mtime preservation), and the two xxHash64
values the post-copy verification would compute. -/

structure CopyEnv where
  io_error : Option String
  source_hash : Nat
  target_hash : Nat

inductive SyncErrorKind where
  | CopyFailed
  | VerificationFailed
  | Other
deriving DecidableEq, Repr

structure SyncError where
  path : RelPath
  message : String
  kind : SyncErrorKind
deriving DecidableEq, Repr

structure SyncResult where
  files_copied : Nat
  bytes_copied : Nat
  errors : List SyncError
deriving DecidableEq, Repr

/-- Embedding of `copy_file_chunked` for target path `target` under
environment `env`.  Returns the Rust `Result<()>` together with whether
the target file was removed by the verification-failure branch. -/
def copy_file_chunked (opts : SyncOptions) (target : RelPath) (env : CopyEnv) :
    Except String Unit × Bool :=
  match env.io_error with
  | some msg => (.error msg, false)
  | none =>
    if opts.verify_after_copy then
      if env.source_hash != env.target_hash then
        (.error ("Verification failed: Checksum mismatch for " ++
          String.intercalate "/" target), true)
      else (.ok (), false)
    else (.ok (), false)

/-- The error-kind classification done in `sync_files`: kind is
`VerificationFailed` iff the message contains `"Verification failed"`. -/
def classifyErrorKind (msg : String) : SyncErrorKind :=
  if ("Verification failed").data <:+: msg.data then
    .VerificationFailed
  else .CopyFailed

/-- One iteration of the `for diff in &dry_run.diffs` loop of
`sync_files`. -/
def syncStep (opts : SyncOptions) (copyEnv : RelPath → CopyEnv)
    (r : SyncResult) (d : FileDiff) : SyncResult :=
  let file_size := d.source_size.getD 0
  match (copy_file_chunked opts d.path (copyEnv d.path)).1 with
  | .error msg =>
    { r with errors := r.errors ++ [⟨d.path, msg, classifyErrorKind msg⟩] }
  | .ok _ =>
    { r with files_copied := r.files_copied + 1
             bytes_copied := r.bytes_copied + file_size }

/-- Embedding of `sync_files`: run the comparison, then copy each diff in
order, collecting per-file errors and counting only successful copies. -/
def sync_files (opts : SyncOptions) (hashes : RelPath → Nat × Nat)
    (sourceFiles targetFiles : List FileMetadata)
    (copyEnv : RelPath → CopyEnv) : SyncResult :=
  let dry := (compare_dirs_internal opts hashes sourceFiles targetFiles).1
  dry.diffs.foldl (syncStep opts copyEnv) ⟨0, 0, []⟩

/-- Target-side scan record of a freshly copied file: the copy truncates
and rewrites the target file with the source content (hence the source
size) and, with `preserve_times`, stamps the source mtime onto it.  The
creation time plays no role in any comparison and is left `none`. -/
def copiedRecord (sm : FileMetadata) : FileMetadata :=
  { path := sm.path, size := sm.size, modified := sm.modified
    created := none, is_file := true }

/-- The target map after a fully successful `sync_files` run with
`preserve_times` on: every diff path now carries a copy of the source
record, everything else is untouched. -/
def applySyncMap (sourceFiles : List FileMetadata)
    (tgtMap : RelPath → Option FileMetadata) (diffs : List FileDiff) :
    RelPath → Option FileMetadata :=
  fun p =>
    if diffs.any fun d => d.path == p then
      (lookupMeta sourceFiles p).map copiedRecord
    else tgtMap p

/-- The source/target hash pairs after a fully successful run: at every
diff path the target now holds the source content, so both checksums are
the source checksum. -/
def applySyncHashes (hashes : RelPath → Nat × Nat) (diffs : List FileDiff) :
    RelPath → Nat × Nat :=
  fun p =>
    if diffs.any fun d => d.path == p then ((hashes p).1, (hashes p).1)
    else hashes p

/-- Whether `copy_file_chunked` succeeds for a diff under `copyEnv`. -/
def copySucceeds (opts : SyncOptions) (copyEnv : RelPath → CopyEnv)
    (d : FileDiff) : Bool :=
  match (copy_file_chunked opts d.path (copyEnv d.path)).1 with
  | .ok _ => true
  | .error _ => false

/-- The error record `sync_files` appends for a diff, if its copy fails. -/
def copyErrorOf (opts : SyncOptions) (copyEnv : RelPath → CopyEnv)
    (d : FileDiff) : Option SyncError :=
  match (copy_file_chunked opts d.path (copyEnv d.path)).1 with
  | .ok _ => none
  | .error msg => some ⟨d.path, msg, classifyErrorKind msg⟩

/-! ## Helper lemmas about the difference engine -/

theorem compareEntry_dir {opts hashes sm tm?} (h : sm.is_file = false) :
    compareEntry opts hashes sm tm? = .nothing := by
  unfold compareEntry
  rcases tm? with _ | tm <;> simp [h]

theorem compareEntry_both {opts : SyncOptions} {hashes} {sm tm : FileMetadata}
    (hfile : sm.is_file = true) (hnot : ¬ sm.modified < tm.modified) :
    compareEntry opts hashes sm (some tm) =
      if (sm.size != tm.size || decide (tm.modified < sm.modified)) ||
         (opts.checksum_mode && ((hashes sm.path).1 != (hashes sm.path).2)) then
        .diff ⟨sm.path, .Modified, some sm.size, some tm.size⟩
      else .nothing := by
  unfold compareEntry
  simp only [hfile, if_true, if_neg hnot]
  rcases h0 : (sm.size != tm.size || decide (tm.modified < sm.modified)) with _ | _ <;>
    rcases hc : opts.checksum_mode with _ | _ <;>
      simp [h0, hc]

theorem compareEntry_diff_path {opts hashes sm tm?} {d : FileDiff}
    (h : compareEntry opts hashes sm tm? = .diff d) : d.path = sm.path := by
  by_cases hf : sm.is_file = true
  · rcases tm? with _ | tm
    · simp only [compareEntry, hf, if_true] at h
      cases h
      rfl
    · by_cases hlt : sm.modified < tm.modified
      · simp only [compareEntry, hf, if_true, if_pos hlt] at h
        cases h
      · rw [compareEntry_both hf hlt] at h
        split at h
        · cases h
          rfl
        · cases h
  · rw [compareEntry_dir (by simpa using hf)] at h
    cases h

theorem compareEntry_conflict_elim {opts hashes sm tm?}
    {c : TargetNewerConflictCandidate}
    (h : compareEntry opts hashes sm tm? = .conflict c) :
    ∃ tm, tm? = some tm ∧ sm.is_file = true ∧ sm.modified < tm.modified ∧
      c = ⟨sm.path, snapshot_from_metadata sm, snapshot_from_metadata tm⟩ := by
  by_cases hf : sm.is_file = true
  · rcases tm? with _ | tm
    · simp [compareEntry, hf] at h
    · by_cases hlt : sm.modified < tm.modified
      · simp only [compareEntry, hf, if_true, if_pos hlt] at h
        cases h
        exact ⟨tm, rfl, hf, hlt, rfl⟩
      · rw [compareEntry_both hf hlt] at h
        split at h
        · cases h
        · cases h
  · rw [compareEntry_dir (by simpa using hf)] at h
    cases h

theorem mem_compare_diffs {opts hashes src tgtMap} {d : FileDiff} :
    d ∈ (compareWith opts hashes src tgtMap).1.diffs ↔
      ∃ sm ∈ src, compareEntry opts hashes sm (tgtMap sm.path) = .diff d := by
  unfold compareWith
  simp only [List.mem_filterMap, List.mem_map]
  constructor
  · rintro ⟨o, ⟨sm, hsm, rfl⟩, ho⟩
    refine ⟨sm, hsm, ?_⟩
    cases h : compareEntry opts hashes sm (tgtMap sm.path) <;>
      simp [h, outcomeDiff] at ho <;> simp [ho]
  · rintro ⟨sm, hsm, h⟩
    exact ⟨_, ⟨sm, hsm, rfl⟩, by simp [h, outcomeDiff]⟩

theorem mem_compare_conflicts {opts hashes src tgtMap}
    {c : TargetNewerConflictCandidate} :
    c ∈ (compareWith opts hashes src tgtMap).2 ↔
      ∃ sm ∈ src, compareEntry opts hashes sm (tgtMap sm.path) = .conflict c := by
  unfold compareWith
  simp only [List.mem_filterMap, List.mem_map]
  constructor
  · rintro ⟨o, ⟨sm, hsm, rfl⟩, ho⟩
    refine ⟨sm, hsm, ?_⟩
    cases h : compareEntry opts hashes sm (tgtMap sm.path) <;>
      simp [h, outcomeConflict] at ho <;> simp [ho]
  · rintro ⟨sm, hsm, h⟩
    exact ⟨_, ⟨sm, hsm, rfl⟩, by simp [h, outcomeConflict]⟩

theorem nodup_path_inj {src : List FileMetadata}
    (h : (src.map FileMetadata.path).Nodup) {a b : FileMetadata}
    (ha : a ∈ src) (hb : b ∈ src) (hp : a.path = b.path) : a = b :=
  List.inj_on_of_nodup_map h ha hb hp

theorem syncStep_foldl (opts : SyncOptions) (copyEnv : RelPath → CopyEnv)
    (l : List FileDiff) (r : SyncResult) :
    l.foldl (syncStep opts copyEnv) r =
      { files_copied := r.files_copied +
          (l.filter (copySucceeds opts copyEnv)).length
        bytes_copied := r.bytes_copied +
          ((l.filter (copySucceeds opts copyEnv)).map
            fun d => d.source_size.getD 0).sum
        errors := r.errors ++ l.filterMap (copyErrorOf opts copyEnv) } := by
  induction l generalizing r with
  | nil => simp
  | cons d l ih =>
    rw [List.foldl_cons, ih]
    rcases hcp : (copy_file_chunked opts d.path (copyEnv d.path)).1 with msg | u
    · simp [syncStep, copySucceeds, copyErrorOf, hcp, List.filter_cons,
        List.filterMap_cons]
    · simp [syncStep, copySucceeds, copyErrorOf, hcp, List.filter_cons,
        List.filterMap_cons, Nat.add_assoc, Nat.add_comm 1]

/-- Closed form of `sync_files`: the counters reflect exactly the diffs
whose copy succeeded, and the errors list collects one record per failed
diff, in order. -/
theorem sync_files_spec (opts : SyncOptions) (hashes : RelPath → Nat × Nat)
    (sourceFiles targetFiles : List FileMetadata)
    (copyEnv : RelPath → CopyEnv) :
    sync_files opts hashes sourceFiles targetFiles copyEnv =
      { files_copied :=
          (((compare_dirs_internal opts hashes sourceFiles targetFiles).1.diffs.filter
            (copySucceeds opts copyEnv)).length)
        bytes_copied :=
          ((((compare_dirs_internal opts hashes sourceFiles targetFiles).1.diffs.filter
            (copySucceeds opts copyEnv)).map fun d => d.source_size.getD 0).sum)
        errors :=
          (compare_dirs_internal opts hashes sourceFiles targetFiles).1.diffs.filterMap
            (copyErrorOf opts copyEnv) } := by
  unfold sync_files
  rw [syncStep_foldl]
  simp

/-! ## Claim theorems: difference engine -/

/-- C1.  For a file present in both scans whose target mtime is not
greater than its source mtime, a `Modified` diff is emitted by
`compare_dirs_internal` if and only if the sizes differ, or the source
mtime is strictly newer, or checksum mode is on and the two xxHash64
values differ.  (A directory walk yields every relative path once, hence
the `Nodup` hypothesis on the scanned source paths.) -/
theorem modified_diff_iff_for_shared_file
    (opts : SyncOptions) (hashes : RelPath → Nat × Nat)
    (sourceFiles targetFiles : List FileMetadata) (sm tm : FileMetadata)
    (hnodup : (sourceFiles.map FileMetadata.path).Nodup)
    (hmem : sm ∈ sourceFiles) (hfile : sm.is_file = true)
    (htm : lookupMeta targetFiles sm.path = some tm)
    (hnot : ¬ sm.modified < tm.modified) :
    (∃ d ∈ (compare_dirs_internal opts hashes sourceFiles targetFiles).1.diffs,
        d.path = sm.path ∧ d.kind = .Modified) ↔
      (sm.size ≠ tm.size ∨ tm.modified < sm.modified ∨
        (opts.checksum_mode = true ∧
          (hashes sm.path).1 ≠ (hashes sm.path).2)) := by
  have hboth := @compareEntry_both opts hashes sm tm hfile hnot
  have hbool :
      ((sm.size != tm.size || decide (tm.modified < sm.modified)) ||
        (opts.checksum_mode && ((hashes sm.path).1 != (hashes sm.path).2))) = true ↔
      (sm.size ≠ tm.size ∨ tm.modified < sm.modified ∨
        (opts.checksum_mode = true ∧
          (hashes sm.path).1 ≠ (hashes sm.path).2)) := by
    simp [or_assoc]
  constructor
  · rintro ⟨d, hd, hpath, hkind⟩
    unfold compare_dirs_internal at hd
    rw [mem_compare_diffs] at hd
    obtain ⟨sm', hsm', hentry⟩ := hd
    have hpeq : sm'.path = sm.path :=
      (compareEntry_diff_path hentry).symm.trans hpath
    rw [nodup_path_inj hnodup hsm' hmem hpeq, htm, hboth] at hentry
    by_cases hcnd :
        ((sm.size != tm.size || decide (tm.modified < sm.modified)) ||
          (opts.checksum_mode && ((hashes sm.path).1 != (hashes sm.path).2))) = true
    · exact hbool.mp hcnd
    · rw [if_neg hcnd] at hentry
      cases hentry
  · intro hcond
    refine ⟨⟨sm.path, .Modified, some sm.size, some tm.size⟩, ?_, rfl, rfl⟩
    unfold compare_dirs_internal
    rw [mem_compare_diffs]
    exact ⟨sm, hmem, by rw [htm, hboth, if_pos (hbool.mpr hcond)]⟩

/-- C2.  Every conflict candidate emitted by `compare_dirs_internal`
stems from a file present in both scans whose target mtime strictly
exceeds its source mtime, and no diff of the same run carries the
candidate's relative path. -/
theorem conflict_candidates_target_newer_and_not_diffed
    (opts : SyncOptions) (hashes : RelPath → Nat × Nat)
    (sourceFiles targetFiles : List FileMetadata)
    (hnodup : (sourceFiles.map FileMetadata.path).Nodup) :
    ∀ c ∈ (compare_dirs_internal opts hashes sourceFiles targetFiles).2,
      (∃ sm tm, sm ∈ sourceFiles ∧ sm.is_file = true ∧
        lookupMeta targetFiles sm.path = some tm ∧
        c.path = sm.path ∧ sm.modified < tm.modified ∧
        c.source = snapshot_from_metadata sm ∧
        c.target = snapshot_from_metadata tm) ∧
      ∀ d ∈ (compare_dirs_internal opts hashes sourceFiles targetFiles).1.diffs,
        d.path ≠ c.path := by
  intro c hc
  unfold compare_dirs_internal at hc
  rw [mem_compare_conflicts] at hc
  obtain ⟨sm, hsm, hentry⟩ := hc
  obtain ⟨tm, htm, hfile, hlt, hceq⟩ := compareEntry_conflict_elim hentry
  subst hceq
  refine ⟨⟨sm, tm, hsm, hfile, htm, rfl, hlt, rfl, rfl⟩, ?_⟩
  intro d hd hdp
  unfold compare_dirs_internal at hd
  rw [mem_compare_diffs] at hd
  obtain ⟨sm', hsm', hentry'⟩ := hd
  have hpeq : sm'.path = sm.path :=
    (compareEntry_diff_path hentry').symm.trans hdp
  rw [nodup_path_inj hnodup hsm' hsm hpeq, hentry] at hentry'
  cases hentry'

/-- C9.  A source record whose `is_file` flag is false produces neither a
diff nor a conflict candidate, and a fully successful `sync_files` run
leaves the target untouched at its path (so a source-only empty directory
is never created at the target). -/
theorem directory_records_are_ignored
    (opts : SyncOptions) (hashes : RelPath → Nat × Nat)
    (sourceFiles targetFiles : List FileMetadata) (sm : FileMetadata)
    (hnodup : (sourceFiles.map FileMetadata.path).Nodup)
    (hmem : sm ∈ sourceFiles) (hdir : sm.is_file = false) :
    (∀ d ∈ (compare_dirs_internal opts hashes sourceFiles targetFiles).1.diffs,
        d.path ≠ sm.path) ∧
    (∀ c ∈ (compare_dirs_internal opts hashes sourceFiles targetFiles).2,
        c.path ≠ sm.path) ∧
    applySyncMap sourceFiles (lookupMeta targetFiles)
        (compare_dirs_internal opts hashes sourceFiles targetFiles).1.diffs
        sm.path =
      lookupMeta targetFiles sm.path := by
  have hnothing :=
    @compareEntry_dir opts hashes sm (lookupMeta targetFiles sm.path) hdir
  have hdiffs :
      ∀ d ∈ (compare_dirs_internal opts hashes sourceFiles targetFiles).1.diffs,
        d.path ≠ sm.path := by
    intro d hd hdp
    unfold compare_dirs_internal at hd
    rw [mem_compare_diffs] at hd
    obtain ⟨sm', hsm', hentry'⟩ := hd
    have hpeq : sm'.path = sm.path :=
      (compareEntry_diff_path hentry').symm.trans hdp
    rw [nodup_path_inj hnodup hsm' hmem hpeq, hnothing] at hentry'
    cases hentry'
  refine ⟨hdiffs, ?_, ?_⟩
  · intro c hc hcp
    unfold compare_dirs_internal at hc
    rw [mem_compare_conflicts] at hc
    obtain ⟨sm', hsm', hentry'⟩ := hc
    obtain ⟨tm, htm, hfile', hlt, hceq⟩ := compareEntry_conflict_elim hentry'
    subst hceq
    rw [nodup_path_inj hnodup hsm' hmem hcp, hdir] at hfile'
    cases hfile'
  · have hnone :
        ((compare_dirs_internal opts hashes sourceFiles targetFiles).1.diffs.any
          fun d => d.path == sm.path) = false := by
      rw [List.any_eq_false]
      intro d hd
      simpa using hdiffs d hd
    simp [applySyncMap, hnone]

/-- The message generated by the verification-failure branch of
`copy_file_chunked` is classified as `VerificationFailed` by
`sync_files`. -/
theorem classify_verification_message (t : RelPath) :
    classifyErrorKind ("Verification failed: Checksum mismatch for " ++
      String.intercalate "/" t) = .VerificationFailed := by
  unfold classifyErrorKind
  rw [if_pos]
  rw [String.data_append]
  have h1 : ("Verification failed: Checksum mismatch for ").data =
      ("Verification failed").data ++ (": Checksum mismatch for ").data := by
    decide
  rw [h1]
  exact ⟨[], (": Checksum mismatch for ").data ++
    (String.intercalate "/" t).data, by simp⟩

/-- C4.  With `verify_after_copy` on, a diff whose post-copy checksums
differ (and which hit no earlier I/O error) has its target deleted and a
`VerificationFailed` error recorded, while the run's counters reflect
exactly the diffs whose copy succeeded. -/
theorem verification_failure_is_isolated
    (opts : SyncOptions) (hashes : RelPath → Nat × Nat)
    (sourceFiles targetFiles : List FileMetadata)
    (copyEnv : RelPath → CopyEnv) (d : FileDiff)
    (hverify : opts.verify_after_copy = true)
    (hd : d ∈ (compare_dirs_internal opts hashes sourceFiles targetFiles).1.diffs)
    (hio : (copyEnv d.path).io_error = none)
    (hne : (copyEnv d.path).source_hash ≠ (copyEnv d.path).target_hash) :
    (copy_file_chunked opts d.path (copyEnv d.path)).2 = true ∧
    (∃ e ∈ (sync_files opts hashes sourceFiles targetFiles copyEnv).errors,
      e.path = d.path ∧ e.kind = .VerificationFailed) ∧
    (sync_files opts hashes sourceFiles targetFiles copyEnv).files_copied =
      ((compare_dirs_internal opts hashes sourceFiles targetFiles).1.diffs.filter
        (copySucceeds opts copyEnv)).length ∧
    (sync_files opts hashes sourceFiles targetFiles copyEnv).bytes_copied =
      (((compare_dirs_internal opts hashes sourceFiles targetFiles).1.diffs.filter
        (copySucceeds opts copyEnv)).map fun d => d.source_size.getD 0).sum := by
  have hcopy : copy_file_chunked opts d.path (copyEnv d.path) =
      (.error ("Verification failed: Checksum mismatch for " ++
        String.intercalate "/" d.path), true) := by
    unfold copy_file_chunked
    rw [hio]
    simp [hverify, hne]
  refine ⟨by rw [hcopy], ?_, ?_, ?_⟩
  · refine ⟨⟨d.path, "Verification failed: Checksum mismatch for " ++
      String.intercalate "/" d.path, .VerificationFailed⟩, ?_, rfl, rfl⟩
    rw [sync_files_spec]
    simp only [List.mem_filterMap]
    refine ⟨d, hd, ?_⟩
    unfold copyErrorOf
    rw [hcopy]
    simp [classify_verification_message]
  · rw [sync_files_spec]
  · rw [sync_files_spec]

/-! ## Claim theorems: task-id validation and slot admission -/

theorem one_le_utf8Len {l : List Char} (h : l ≠ []) : 1 ≤ utf8Len l := by
  match l with
  | c :: rest =>
    have hc : 1 ≤ utf8Size c := by
      unfold utf8Size
      split
      · omega
      · split
        · omega
        · split <;> omega
    simp only [utf8Len, List.map_cons, List.sum_cons]
    omega

/-- C7 counterexample.  `validate_task_id` accepts the one-character
string `"é"` even though `é` is not in `[A-Za-z0-9_-]`, because the code
checks Rust `char::is_alphanumeric`, which is Unicode-wide.  The claimed
equivalence is therefore false at this input. -/
theorem validate_task_id_claim_false_at_eacute :
    validate_task_id "é" = .ok () ∧ specTaskIdOk "é" = false := by
  constructor
  · rfl
  · rfl

/-- C7 as amended: `validate_task_id` accepts a string iff its UTF-8 byte
length is between 1 and 100 and every character is Unicode alphanumeric
or `-` or `_`.  The hypothesis restricts inputs to the Latin-1 fragment
on which `rustIsAlphanumeric` models the Rust standard library
exactly. -/
theorem validate_task_id_accepts_iff (s : String)
    (h : ∀ c ∈ s.data, c.toNat < 0x100) :
    validate_task_id s = .ok () ↔
      (1 ≤ utf8Len s.data ∧ utf8Len s.data ≤ 100 ∧
        ∀ c ∈ s.data, (rustIsAlphanumeric c || c = '-' || c = '_') = true) := by
  unfold validate_task_id
  by_cases he : s.data.isEmpty = true
  · rw [if_pos he]
    have hd : s.data = [] := List.isEmpty_iff.mp he
    simp [hd, utf8Len]
  · rw [if_neg he]
    have hne : s.data ≠ [] := by
      intro hh
      exact he (by simp [hh])
    by_cases hl : utf8Len s.data > 100
    · rw [if_pos hl]
      constructor
      · intro hc
        cases hc
      · rintro ⟨-, h2, -⟩
        omega
    · rw [if_neg hl]
      by_cases ha : (s.data.all fun c => rustIsAlphanumeric c || c = '-' || c = '_') = true
      · rw [if_neg (by simp [ha])]
        constructor
        · intro _
          exact ⟨one_le_utf8Len hne, by omega, List.all_eq_true.mp ha⟩
        · intro _
          rfl
      · rw [if_pos (by simpa using ha)]
        constructor
        · intro hc
          cases hc
        · rintro ⟨-, -, hall⟩
          exact absurd (List.all_eq_true.mpr hall) ha

/-- Witness for the amended C7 theorem at the concrete id `"task-1_A"`. -/
theorem validate_task_id_accepts_iff_witness :
    (∀ c ∈ ("task-1_A" : String).data, c.toNat < 0x100) ∧
    (validate_task_id "task-1_A" = .ok () ↔
      (1 ≤ utf8Len ("task-1_A" : String).data ∧
        utf8Len ("task-1_A" : String).data ≤ 100 ∧
        ∀ c ∈ ("task-1_A" : String).data,
          (rustIsAlphanumeric c || c = '-' || c = '_') = true)) :=
  ⟨by decide, validate_task_id_accepts_iff "task-1_A" (by decide)⟩

/-- C3 counterexample.  With two tasks already syncing, the manual-sync
admission path `acquire_sync_slot` still inserts a third task id: the
insert succeeds and the syncing set grows past the cap of 2, so the claim
that every path refuses at the cap is false. -/
theorem manual_sync_slot_ignores_cap :
    (acquire_sync_slot "c" ["a", "b"]).2 = true ∧
    (acquire_sync_slot "c" ["a", "b"]).1 = ["a", "b", "c"] ∧
    RUNTIME_SYNC_MAX_CONCURRENCY < (acquire_sync_slot "c" ["a", "b"]).1.length := by
  refine ⟨?_, ?_, ?_⟩ <;> decide

/-- C3 as amended: only the watch-triggered admission path
`acquire_runtime_sync_slot` enforces the cap of 2 — it never grows the
syncing set beyond the cap and grants a slot exactly when the task is not
already syncing and a slot is free — while the manual path
`acquire_sync_slot` refuses only on membership and inserts regardless of
the set's size. -/
theorem runtime_slot_admission_bounded (t : String) (s : List String)
    (h : s.length ≤ RUNTIME_SYNC_MAX_CONCURRENCY) :
    (acquire_runtime_sync_slot t s).1.length ≤ RUNTIME_SYNC_MAX_CONCURRENCY ∧
    ((acquire_runtime_sync_slot t s).2 = .Acquired ↔
      t ∉ s ∧ s.length < RUNTIME_SYNC_MAX_CONCURRENCY) ∧
    ((acquire_sync_slot t s).2 = false ↔ t ∈ s) := by
  unfold acquire_runtime_sync_slot acquire_sync_slot RUNTIME_SYNC_MAX_CONCURRENCY at *
  by_cases hm : t ∈ s
  · simp [hm]
    omega
  · by_cases hc : s.length ≥ 2
    · rw [if_neg hm, if_pos hc]
      simp [hm]
      omega
    · rw [if_neg hm, if_neg hc]
      simp [hm]
      omega

/-- Witness for the amended C3 theorem with one task syncing. -/
theorem runtime_slot_admission_bounded_witness :
    (["a"] : List String).length ≤ RUNTIME_SYNC_MAX_CONCURRENCY ∧
    ((acquire_runtime_sync_slot "b" ["a"]).1.length ≤ RUNTIME_SYNC_MAX_CONCURRENCY ∧
    ((acquire_runtime_sync_slot "b" ["a"]).2 = .Acquired ↔
      "b" ∉ (["a"] : List String) ∧
        (["a"] : List String).length < RUNTIME_SYNC_MAX_CONCURRENCY) ∧
    ((acquire_sync_slot "b" ["a"]).2 = false ↔ "b" ∈ (["a"] : List String))) :=
  ⟨by decide, runtime_slot_admission_bounded "b" ["a"] (by decide)⟩

/-! ## Claim theorems: running the sync twice -/

theorem compareWith_diffs (opts : SyncOptions) (hashes : RelPath → Nat × Nat)
    (src : List FileMetadata) (tgtMap : RelPath → Option FileMetadata) :
    (compareWith opts hashes src tgtMap).1.diffs =
      src.filterMap fun sm =>
        outcomeDiff (compareEntry opts hashes sm (tgtMap sm.path)) := by
  unfold compareWith
  simp [List.filterMap_map, Function.comp_def]

theorem compareWith_conflicts (opts : SyncOptions) (hashes : RelPath → Nat × Nat)
    (src : List FileMetadata) (tgtMap : RelPath → Option FileMetadata) :
    (compareWith opts hashes src tgtMap).2 =
      src.filterMap fun sm =>
        outcomeConflict (compareEntry opts hashes sm (tgtMap sm.path)) := by
  unfold compareWith
  simp [List.filterMap_map, Function.comp_def]

theorem diff_emitted_at_path_iff {opts : SyncOptions} {hashes : RelPath → Nat × Nat}
    {src : List FileMetadata} {tgtMap : RelPath → Option FileMetadata}
    {sm : FileMetadata}
    (hnodup : (src.map FileMetadata.path).Nodup) (hsm : sm ∈ src) :
    ((compareWith opts hashes src tgtMap).1.diffs.any
        fun d => d.path == sm.path) = true ↔
      ∃ d, compareEntry opts hashes sm (tgtMap sm.path) = .diff d := by
  rw [List.any_eq_true]
  constructor
  · rintro ⟨d, hd, hdp⟩
    rw [mem_compare_diffs] at hd
    obtain ⟨sm', hsm', hentry⟩ := hd
    have hdp' : d.path = sm.path := by simpa using hdp
    have hpeq : sm'.path = sm.path :=
      (compareEntry_diff_path hentry).symm.trans hdp'
    rw [nodup_path_inj hnodup hsm' hsm hpeq] at hentry
    exact ⟨d, hentry⟩
  · rintro ⟨d, hentry⟩
    refine ⟨d, ?_, by simp [compareEntry_diff_path hentry]⟩
    rw [mem_compare_diffs]
    exact ⟨sm, hsm, hentry⟩

theorem lookupMeta_self {src : List FileMetadata} {sm : FileMetadata}
    (hnodup : (src.map FileMetadata.path).Nodup) (hsm : sm ∈ src) :
    lookupMeta src sm.path = some sm := by
  unfold lookupMeta
  rcases h : src.reverse.find? (fun f => f.path == sm.path) with _ | x
  · exfalso
    have := List.find?_eq_none.mp h sm (by simpa using hsm)
    simp at this
  · have hx1 : x ∈ src := by
      have := List.mem_of_find?_eq_some h
      simpa using this
    have hx2 : x.path = sm.path := by
      have := List.find?_some h
      simpa using this
    rw [h, nodup_path_inj hnodup hx1 hsm hx2]

theorem compareEntry_diff_is_file {opts hashes sm tm?} {d : FileDiff}
    (h : compareEntry opts hashes sm tm? = .diff d) : sm.is_file = true := by
  by_cases hf : sm.is_file = true
  · exact hf
  · rw [compareEntry_dir (by simpa using hf)] at h
    cases h

theorem compareEntry_hash_congr {opts : SyncOptions}
    {hashes hashes2 : RelPath → Nat × Nat} {sm : FileMetadata}
    {tm? : Option FileMetadata} (h : hashes2 sm.path = hashes sm.path) :
    compareEntry opts hashes2 sm tm? = compareEntry opts hashes sm tm? := by
  unfold compareEntry
  rw [h]

/-- Sample records and options used by the concrete instances below:
one relative path `f` present on both sides, the target copy one tick
newer than the source, equal sizes and contents. -/
def smX : FileMetadata := ⟨["f"], 1, 0, none, true⟩

def tmX : FileMetadata := ⟨["f"], 1, 5, none, true⟩

def opts0 : SyncOptions := ⟨true, true, true, false, []⟩

def hashes0 : RelPath → Nat × Nat := fun _ => (0, 0)

def env0 : RelPath → CopyEnv := fun _ => ⟨none, 0, 0⟩

/-- C8 counterexample.  With a pre-existing target-newer file, the first
run copies nothing and produces no diffs, so source and target are
unchanged for the second run — and the second, identical comparison still
emits one conflict candidate even though no external process advanced the
target's mtime between the two runs.  The claim's "no conflict candidates
appear unless an external process advanced the target's mtime between the
runs" is therefore false at this input. -/
theorem second_run_conflict_reappears :
    (sync_files opts0 hashes0 [smX] [tmX] env0).files_copied = 0 ∧
    (compare_dirs_internal opts0 hashes0 [smX] [tmX]).1.diffs = [] ∧
    (compare_dirs_internal opts0 hashes0 [smX] [tmX]).2.length = 1 := by
  refine ⟨?_, ?_, ?_⟩ <;> decide

/-- C8 as amended: after a first run whose copies all succeeded (with
`preserve_times` on, so every copied target record carries the source
mtime, size and content), a second comparison emits no diffs at all —
with or without checksum mode — hence a second `sync_files` run copies
zero files; and the second run's conflict candidates are exactly the
first run's, so no conflict candidate appears that the first run did not
already report unless an external process advanced the target's mtime
between the runs. -/
theorem second_run_copies_nothing
    (opts : SyncOptions) (hashes : RelPath → Nat × Nat)
    (sourceFiles : List FileMetadata) (tgtMap : RelPath → Option FileMetadata)
    (copyEnv : RelPath → CopyEnv)
    (hp : opts.preserve_times = true)
    (hnodup : (sourceFiles.map FileMetadata.path).Nodup) :
    (compareWith opts
        (applySyncHashes hashes (compareWith opts hashes sourceFiles tgtMap).1.diffs)
        sourceFiles
        (applySyncMap sourceFiles tgtMap
          (compareWith opts hashes sourceFiles tgtMap).1.diffs)).1.diffs = [] ∧
    (compareWith opts
        (applySyncHashes hashes (compareWith opts hashes sourceFiles tgtMap).1.diffs)
        sourceFiles
        (applySyncMap sourceFiles tgtMap
          (compareWith opts hashes sourceFiles tgtMap).1.diffs)).2 =
      (compareWith opts hashes sourceFiles tgtMap).2 ∧
    ((compareWith opts
        (applySyncHashes hashes (compareWith opts hashes sourceFiles tgtMap).1.diffs)
        sourceFiles
        (applySyncMap sourceFiles tgtMap
          (compareWith opts hashes sourceFiles tgtMap).1.diffs)).1.diffs.foldl
        (syncStep opts copyEnv) ⟨0, 0, []⟩).files_copied = 0 := by
  have key : ∀ sm ∈ sourceFiles,
      outcomeDiff (compareEntry opts
          (applySyncHashes hashes (compareWith opts hashes sourceFiles tgtMap).1.diffs)
          sm
          (applySyncMap sourceFiles tgtMap
            (compareWith opts hashes sourceFiles tgtMap).1.diffs sm.path)) = none ∧
      outcomeConflict (compareEntry opts
          (applySyncHashes hashes (compareWith opts hashes sourceFiles tgtMap).1.diffs)
          sm
          (applySyncMap sourceFiles tgtMap
            (compareWith opts hashes sourceFiles tgtMap).1.diffs sm.path)) =
        outcomeConflict (compareEntry opts hashes sm (tgtMap sm.path)) := by
    intro sm hsm
    by_cases hany : ((compareWith opts hashes sourceFiles tgtMap).1.diffs.any
        fun d => d.path == sm.path) = true
    · obtain ⟨d, hentry⟩ := (diff_emitted_at_path_iff hnodup hsm).mp hany
      have hf := compareEntry_diff_is_file hentry
      have htgt2 : applySyncMap sourceFiles tgtMap
          (compareWith opts hashes sourceFiles tgtMap).1.diffs sm.path =
          some (copiedRecord sm) := by
        unfold applySyncMap
        rw [if_pos hany, lookupMeta_self hnodup hsm]
        rfl
      have hh2 : applySyncHashes hashes
          (compareWith opts hashes sourceFiles tgtMap).1.diffs sm.path =
          ((hashes sm.path).1, (hashes sm.path).1) := by
        unfold applySyncHashes
        rw [if_pos hany]
      have hnothing : compareEntry opts
          (applySyncHashes hashes (compareWith opts hashes sourceFiles tgtMap).1.diffs)
          sm
          (applySyncMap sourceFiles tgtMap
            (compareWith opts hashes sourceFiles tgtMap).1.diffs sm.path) =
          EntryOutcome.nothing := by
        rw [htgt2]
        rw [@compareEntry_both opts
            (applySyncHashes hashes (compareWith opts hashes sourceFiles tgtMap).1.diffs)
          sm (copiedRecord sm) hf (by simp [copiedRecord])]
        rw [if_neg (by simp [copiedRecord, hh2])]
      rw [hnothing, hentry]
      exact ⟨rfl, rfl⟩
    · have hnone : ¬ ∃ d, compareEntry opts hashes sm (tgtMap sm.path) = .diff d := by
        intro hex
        exact hany ((diff_emitted_at_path_iff hnodup hsm).mpr hex)
      have hanyf : ((compareWith opts hashes sourceFiles tgtMap).1.diffs.any
          fun d => d.path == sm.path) = false := by
        simpa using hany
      have htgt2 : applySyncMap sourceFiles tgtMap
          (compareWith opts hashes sourceFiles tgtMap).1.diffs sm.path =
          tgtMap sm.path := by
        unfold applySyncMap
        rw [hanyf]
        simp
      have hh2 : applySyncHashes hashes
          (compareWith opts hashes sourceFiles tgtMap).1.diffs sm.path =
          hashes sm.path := by
        unfold applySyncHashes
        rw [hanyf]
        simp
      rw [htgt2, compareEntry_hash_congr hh2]
      refine ⟨?_, rfl⟩
      rcases h : compareEntry opts hashes sm (tgtMap sm.path) with d | c
      · exact absurd ⟨d, h⟩ hnone
      · rfl
      · rfl
  have hdiffs : (compareWith opts
      (applySyncHashes hashes (compareWith opts hashes sourceFiles tgtMap).1.diffs)
      sourceFiles
      (applySyncMap sourceFiles tgtMap
        (compareWith opts hashes sourceFiles tgtMap).1.diffs)).1.diffs = [] := by
    rw [compareWith_diffs, List.filterMap_eq_nil_iff]
    intro sm hsm
    exact (key sm hsm).1
  refine ⟨hdiffs, ?_, by rw [hdiffs]; rfl⟩
  rw [compareWith_conflicts, compareWith_conflicts]
  apply List.filterMap_congr
  intro sm hsm
  exact (key sm hsm).2

/-- Witness for the amended C8 theorem on the sample one-conflict
state. -/
theorem second_run_copies_nothing_witness :
    opts0.preserve_times = true ∧
    (([smX].map FileMetadata.path)).Nodup ∧
    ((compareWith opts0
        (applySyncHashes hashes0 (compareWith opts0 hashes0 [smX] (lookupMeta [tmX])).1.diffs)
        [smX]
        (applySyncMap [smX] (lookupMeta [tmX])
          (compareWith opts0 hashes0 [smX] (lookupMeta [tmX])).1.diffs)).1.diffs = [] ∧
    (compareWith opts0
        (applySyncHashes hashes0 (compareWith opts0 hashes0 [smX] (lookupMeta [tmX])).1.diffs)
        [smX]
        (applySyncMap [smX] (lookupMeta [tmX])
          (compareWith opts0 hashes0 [smX] (lookupMeta [tmX])).1.diffs)).2 =
      (compareWith opts0 hashes0 [smX] (lookupMeta [tmX])).2 ∧
    ((compareWith opts0
        (applySyncHashes hashes0 (compareWith opts0 hashes0 [smX] (lookupMeta [tmX])).1.diffs)
        [smX]
        (applySyncMap [smX] (lookupMeta [tmX])
          (compareWith opts0 hashes0 [smX] (lookupMeta [tmX])).1.diffs)).1.diffs.foldl
        (syncStep opts0 env0) ⟨0, 0, []⟩).files_copied = 0) :=
  ⟨by decide, by decide,
    second_run_copies_nothing opts0 hashes0 [smX] (lookupMeta [tmX]) env0
      (by decide) (by decide)⟩

/-! ## Witnesses for the difference-engine and pipeline theorems -/

/-- Sample shared file: sizes differ, source newer than target. -/
def smY : FileMetadata := ⟨["g"], 1, 5, none, true⟩

def tmY : FileMetadata := ⟨["g"], 2, 3, none, true⟩

/-- Sample source-only directory record. -/
def dirX : FileMetadata := ⟨["d"], 0, 0, none, false⟩

/-- Options with post-copy verification on. -/
def optsV : SyncOptions := ⟨false, true, true, true, []⟩

/-- The `New` diff the engine emits for `smY` against an empty target. -/
def dY : FileDiff := ⟨["g"], .New, some 1, none⟩

/-- A copy environment whose post-copy checksums disagree. -/
def envBad : RelPath → CopyEnv := fun _ => ⟨none, 1, 2⟩

theorem modified_diff_iff_for_shared_file_witness :
    (([smY].map FileMetadata.path)).Nodup ∧
    smY ∈ [smY] ∧
    smY.is_file = true ∧
    lookupMeta [tmY] smY.path = some tmY ∧
    ¬ smY.modified < tmY.modified ∧
    ((∃ d ∈ (compare_dirs_internal opts0 hashes0 [smY] [tmY]).1.diffs,
        d.path = smY.path ∧ d.kind = .Modified) ↔
      (smY.size ≠ tmY.size ∨ tmY.modified < smY.modified ∨
        (opts0.checksum_mode = true ∧
          (hashes0 smY.path).1 ≠ (hashes0 smY.path).2))) :=
  ⟨by decide, by decide, by decide, by decide, by decide,
    modified_diff_iff_for_shared_file opts0 hashes0 [smY] [tmY] smY tmY
      (by decide) (by decide) (by decide) (by decide) (by decide)⟩

theorem conflict_candidates_target_newer_and_not_diffed_witness :
    (([smX].map FileMetadata.path)).Nodup ∧
    (∀ c ∈ (compare_dirs_internal opts0 hashes0 [smX] [tmX]).2,
      (∃ sm tm, sm ∈ [smX] ∧ sm.is_file = true ∧
        lookupMeta [tmX] sm.path = some tm ∧
        c.path = sm.path ∧ sm.modified < tm.modified ∧
        c.source = snapshot_from_metadata sm ∧
        c.target = snapshot_from_metadata tm) ∧
      ∀ d ∈ (compare_dirs_internal opts0 hashes0 [smX] [tmX]).1.diffs,
        d.path ≠ c.path) :=
  ⟨by decide,
    conflict_candidates_target_newer_and_not_diffed opts0 hashes0 [smX] [tmX]
      (by decide)⟩

theorem directory_records_are_ignored_witness :
    (([dirX].map FileMetadata.path)).Nodup ∧
    dirX ∈ [dirX] ∧
    dirX.is_file = false ∧
    ((∀ d ∈ (compare_dirs_internal opts0 hashes0 [dirX] []).1.diffs,
        d.path ≠ dirX.path) ∧
    (∀ c ∈ (compare_dirs_internal opts0 hashes0 [dirX] []).2,
        c.path ≠ dirX.path) ∧
    applySyncMap [dirX] (lookupMeta [])
        (compare_dirs_internal opts0 hashes0 [dirX] []).1.diffs dirX.path =
      lookupMeta [] dirX.path) :=
  ⟨by decide, by decide, by decide,
    directory_records_are_ignored opts0 hashes0 [dirX] [] dirX
      (by decide) (by decide) (by decide)⟩

theorem verification_failure_is_isolated_witness :
    optsV.verify_after_copy = true ∧
    dY ∈ (compare_dirs_internal optsV hashes0 [smY] []).1.diffs ∧
    (envBad dY.path).io_error = none ∧
    (envBad dY.path).source_hash ≠ (envBad dY.path).target_hash ∧
    ((copy_file_chunked optsV dY.path (envBad dY.path)).2 = true ∧
    (∃ e ∈ (sync_files optsV hashes0 [smY] [] envBad).errors,
      e.path = dY.path ∧ e.kind = .VerificationFailed) ∧
    (sync_files optsV hashes0 [smY] [] envBad).files_copied =
      ((compare_dirs_internal optsV hashes0 [smY] []).1.diffs.filter
        (copySucceeds optsV envBad)).length ∧
    (sync_files optsV hashes0 [smY] [] envBad).bytes_copied =
      (((compare_dirs_internal optsV hashes0 [smY] []).1.diffs.filter
        (copySucceeds optsV envBad)).map fun d => d.source_size.getD 0).sum) :=
  ⟨by decide, by decide, by decide, by decide,
    verification_failure_is_isolated optsV hashes0 [smY] [] envBad dY
      (by decide) (by decide) (by decide) (by decide)⟩

/-! ## Orphan deletion (`delete_orphan_paths`)

The requested paths are `PathBuf`s from the caller: a request is modelled
as an absolute-flag plus a component list (`Component::ParentDir` kept
explicit, `CurDir` is already normalised away by `Path::components`).
Filesystem behaviour is an explicit environment: existence test,
canonicalization (which follows symlinks, hence is not required to stay
below the root), `symlink_metadata`, the `count_dir_contents` snapshot
and the result of each `remove_file`/`remove_dir_all` call.  `root` is
the canonicalized target directory.  Besides the Rust return value the
embedding returns the log of successfully removed canonical paths
(tagged with `is_dir`). -/

inductive PComp where
  | normal (s : String)
  | parentDir
deriving DecidableEq, Repr

structure ReqPath where
  isAbs : Bool
  comps : List PComp
deriving DecidableEq, Repr

def relNames (p : ReqPath) : List String :=
  p.comps.filterMap fun c =>
    match c with
    | .normal s => some s
    | .parentDir => none

/-- Component-wise `Path::starts_with`. -/
def pathStartsWith : List String → List String → Bool
  | [], _ => true
  | _ :: _, [] => false
  | a :: pre, b :: l => a == b && pathStartsWith pre l

inductive MetaResult where
  | notFound
  | errorR (msg : String)
  | found (isDir : Bool)
deriving DecidableEq, Repr

structure DelEnv where
  pathExists : List String → Bool
  canonicalize : List String → List String
  symlinkMeta : List String → MetaResult
  countContents : List String → Except String (Nat × Nat)
  removeResult : List String → Option String

structure DeleteOrphanFailure where
  path : List String
  error : String
deriving DecidableEq, Repr

structure DeleteOrphanResult where
  deleted_count : Nat
  deleted_files_count : Nat
  deleted_dirs_count : Nat
  skipped_count : Nat
  failures : List DeleteOrphanFailure
deriving DecidableEq, Repr

/-- The four screening checks of `delete_orphan_paths`, in source order:
absolute path, `..` component, nonexistent path, canonical form escaping
the canonical target root. -/
def badRequest (env : DelEnv) (root : List String) (rel : ReqPath) : Bool :=
  rel.isAbs ||
  (rel.comps.any fun c => c == .parentDir) ||
  !(env.pathExists (root ++ relNames rel)) ||
  !(pathStartsWith root (env.canonicalize (root ++ relNames rel)))

/-- The `canonical_targets` vector: each surviving request as its
relative component list paired with its canonical path. -/
def screenedTargets (env : DelEnv) (root : List String) (reqs : List ReqPath) :
    List (List String × List String) :=
  reqs.filterMap fun rel =>
    if badRequest env root rel then none
    else some (relNames rel, env.canonicalize (root ++ relNames rel))

/-- `relative == kept || relative.strip_prefix(kept) has a nonempty
rest`: the pruning cover test of `delete_orphan_paths`. -/
def coversRel (kept e : List String) : Bool :=
  e == kept || (pathStartsWith kept e && decide (kept.length < e.length))

/-- One step of the shallow-to-deep pruning pass: keep an entry unless an
already kept entry covers it. -/
def pruneStep (kept : List (List String × List String))
    (e : List String × List String) : List (List String × List String) :=
  if kept.any fun k => coversRel k.1 e.1 then kept else kept ++ [e]

/-- The pruning pass over the sorted `canonical_targets`. -/
def pruneCovered (l : List (List String × List String)) :
    List (List String × List String) :=
  l.foldl pruneStep []

/-- `reduced_targets`: sort shallow→deep by component count, prune. -/
def reducedTargets (env : DelEnv) (root : List String) (reqs : List ReqPath) :
    List (List String × List String) :=
  pruneCovered
    (List.insertionSort (fun a b => a.1.length ≤ b.1.length)
      (screenedTargets env root reqs))

/-- The reduced entries re-sorted deep→shallow for deletion. -/
def deletionOrder (env : DelEnv) (root : List String) (reqs : List ReqPath) :
    List (List String × List String) :=
  List.insertionSort (fun a b => b.1.length ≤ a.1.length)
    (reducedTargets env root reqs)

structure DelAcc where
  files : Nat
  dirs : Nat
  skipped : Nat
  failures : List DeleteOrphanFailure
  deleted : List (List String × Bool)
deriving DecidableEq, Repr

/-- One iteration of the deletion loop: re-check the entry via
`symlink_metadata`, snapshot directory contents, remove, and account. -/
def deleteStep (env : DelEnv) (acc : DelAcc)
    (entry : List String × List String) : DelAcc :=
  match env.symlinkMeta entry.2 with
  | .notFound => { acc with skipped := acc.skipped + 1 }
  | .errorR msg => { acc with failures := acc.failures ++ [⟨entry.1, msg⟩] }
  | .found isDir =>
    if isDir then
      match env.countContents entry.2 with
      | .error msg => { acc with failures := acc.failures ++ [⟨entry.1, msg⟩] }
      | .ok (df, dd) =>
        match env.removeResult entry.2 with
        | none =>
          { acc with files := acc.files + df, dirs := acc.dirs + dd + 1
                     deleted := acc.deleted ++ [(entry.2, true)] }
        | some msg => { acc with failures := acc.failures ++ [⟨entry.1, msg⟩] }
    else
      match env.removeResult entry.2 with
      | none =>
        { acc with files := acc.files + 1
                   deleted := acc.deleted ++ [(entry.2, false)] }
      | some msg => { acc with failures := acc.failures ++ [⟨entry.1, msg⟩] }

/-- Embedding of `delete_orphan_paths` over the canonical target `root`:
screen the requests, sort and prune, delete deep-first, and assemble the
counters.  The second component is the effect log of successful
removals. -/
def delete_orphan_paths (env : DelEnv) (root : List String)
    (reqs : List ReqPath) : DeleteOrphanResult × List (List String × Bool) :=
  let screenedSkipped := (reqs.filter fun rel => badRequest env root rel).length
  let acc := (deletionOrder env root reqs).foldl (deleteStep env)
    ⟨0, 0, screenedSkipped, [], []⟩
  (⟨acc.files + acc.dirs, acc.files, acc.dirs, acc.skipped, acc.failures⟩,
    acc.deleted)

/-- The per-entry contribution of the deletion loop, as a tuple
`(files, dirs, skippedNotFound, failure?, removed?)`. -/
def stepDelta (env : DelEnv) (e : List String × List String) :
    Nat × Nat × Nat × Option DeleteOrphanFailure × Option (List String × Bool) :=
  match env.symlinkMeta e.2 with
  | .notFound => (0, 0, 1, none, none)
  | .errorR msg => (0, 0, 0, some ⟨e.1, msg⟩, none)
  | .found isDir =>
    if isDir then
      match env.countContents e.2 with
      | .error msg => (0, 0, 0, some ⟨e.1, msg⟩, none)
      | .ok (df, dd) =>
        match env.removeResult e.2 with
        | none => (df, dd + 1, 0, none, some (e.2, true))
        | some msg => (0, 0, 0, some ⟨e.1, msg⟩, none)
    else
      match env.removeResult e.2 with
      | none => (1, 0, 0, none, some (e.2, false))
      | some msg => (0, 0, 0, some ⟨e.1, msg⟩, none)

/-- Number of descendant files a successful removal adds to
`deleted_files_count`: the snapshot count for a directory, `1` for a
plain file. -/
def contribFiles (env : DelEnv) (pb : List String × Bool) : Nat :=
  if pb.2 then
    match env.countContents pb.1 with
    | .ok (df, _) => df
    | .error _ => 0
  else 1

/-- Number of directories a successful removal adds to
`deleted_dirs_count`: the snapshot count plus the directory itself, `0`
for a plain file. -/
def contribDirs (env : DelEnv) (pb : List String × Bool) : Nat :=
  if pb.2 then
    (match env.countContents pb.1 with
      | .ok (_, dd) => dd
      | .error _ => 0) + 1
  else 0

/-! ## Helper lemmas about orphan deletion -/

theorem deleteStep_eq (env : DelEnv) (acc : DelAcc)
    (e : List String × List String) :
    deleteStep env acc e =
      ⟨acc.files + (stepDelta env e).1,
       acc.dirs + (stepDelta env e).2.1,
       acc.skipped + (stepDelta env e).2.2.1,
       acc.failures ++ (stepDelta env e).2.2.2.1.toList,
       acc.deleted ++ (stepDelta env e).2.2.2.2.toList⟩ := by
  unfold deleteStep stepDelta
  rcases hm : env.symlinkMeta e.2 with _ | msg | isDir
  · simp
  · simp
  · rcases isDir with _ | _
    · rcases hr : env.removeResult e.2 with _ | msg
      · simp
      · simp
    · rcases hc : env.countContents e.2 with msg | ⟨df, dd⟩
      · simp
      · rcases hr : env.removeResult e.2 with _ | msg
        · simp [Nat.add_assoc]
        · simp

theorem deleteStep_foldl (env : DelEnv)
    (l : List (List String × List String)) (acc : DelAcc) :
    l.foldl (deleteStep env) acc =
      ⟨acc.files + (l.map fun e => (stepDelta env e).1).sum,
       acc.dirs + (l.map fun e => (stepDelta env e).2.1).sum,
       acc.skipped + (l.map fun e => (stepDelta env e).2.2.1).sum,
       acc.failures ++ (l.filterMap fun e => (stepDelta env e).2.2.2.1),
       acc.deleted ++ (l.filterMap fun e => (stepDelta env e).2.2.2.2)⟩ := by
  induction l generalizing acc with
  | nil => simp
  | cons e l ih =>
    rw [List.foldl_cons, deleteStep_eq, ih]
    rcases hf : (stepDelta env e).2.2.2.1 with _ | x <;>
      rcases hd : (stepDelta env e).2.2.2.2 with _ | y <;>
        simp [List.filterMap_cons, hf, hd, Nat.add_assoc]

theorem stepDelta_skipped (env : DelEnv) (e : List String × List String) :
    (stepDelta env e).2.2.1 =
      if env.symlinkMeta e.2 = .notFound then 1 else 0 := by
  unfold stepDelta
  rcases hm : env.symlinkMeta e.2 with _ | msg | isDir
  · simp
  · simp
  · rcases isDir with _ | _
    · rcases hr : env.removeResult e.2 with _ | msg
      · simp
      · simp
    · rcases hc : env.countContents e.2 with msg | ⟨df, dd⟩
      · simp
      · rcases hr : env.removeResult e.2 with _ | msg
        · simp
        · simp

theorem stepDelta_files (env : DelEnv) (e : List String × List String) :
    (stepDelta env e).1 =
      (((stepDelta env e).2.2.2.2).map (contribFiles env)).getD 0 := by
  unfold stepDelta
  rcases hm : env.symlinkMeta e.2 with _ | msg | isDir
  · simp
  · simp
  · rcases isDir with _ | _
    · rcases hr : env.removeResult e.2 with _ | msg
      · simp [contribFiles]
      · simp
    · rcases hc : env.countContents e.2 with msg | ⟨df, dd⟩
      · simp
      · rcases hr : env.removeResult e.2 with _ | msg
        · simp [contribFiles, hc]
        · simp

theorem stepDelta_dirs (env : DelEnv) (e : List String × List String) :
    (stepDelta env e).2.1 =
      (((stepDelta env e).2.2.2.2).map (contribDirs env)).getD 0 := by
  unfold stepDelta
  rcases hm : env.symlinkMeta e.2 with _ | msg | isDir
  · simp
  · simp
  · rcases isDir with _ | _
    · rcases hr : env.removeResult e.2 with _ | msg
      · simp [contribDirs]
      · simp
    · rcases hc : env.countContents e.2 with msg | ⟨df, dd⟩
      · simp
      · rcases hr : env.removeResult e.2 with _ | msg
        · simp [contribDirs, hc]
        · simp

theorem stepDelta_removed_canonical (env : DelEnv)
    {e : List String × List String} {pb : List String × Bool}
    (h : (stepDelta env e).2.2.2.2 = some pb) : pb.1 = e.2 := by
  unfold stepDelta at h
  rcases hm : env.symlinkMeta e.2 with _ | msg | isDir <;> rw [hm] at h
  · cases h
  · cases h
  · rcases isDir with _ | _
    · rcases hr : env.removeResult e.2 with _ | msg <;> rw [hr] at h
      · cases h
        rfl
      · cases h
    · rcases hc : env.countContents e.2 with msg | ⟨df, dd⟩ <;> rw [hc] at h
      · cases h
      · rcases hr : env.removeResult e.2 with _ | msg <;> rw [hr] at h
        · cases h
          rfl
        · cases h

theorem sum_match_over_filterMap {α β : Type} (g : β → Nat) (f : α → Option β)
    (l : List α) :
    ((l.filterMap f).map g).sum =
      (l.map fun a => ((f a).map g).getD 0).sum := by
  induction l with
  | nil => simp
  | cons a l ih =>
    rcases h : f a with _ | b <;> simp [List.filterMap_cons, h, ih]

theorem sum_ite_eq_length_filter {α : Type} (p : α → Prop) [DecidablePred p]
    (l : List α) :
    (l.map fun a => if p a then 1 else 0).sum =
      (l.filter fun a => decide (p a)).length := by
  induction l with
  | nil => simp
  | cons a l ih =>
    by_cases h : p a <;> simp [h, ih, List.filter_cons, Nat.add_comm]

theorem coversRel_self (x : List String) : coversRel x x = true := by
  simp [coversRel]

theorem mem_pruneStep {kept : List (List String × List String)}
    {e x : List String × List String} (h : x ∈ pruneStep kept e) :
    x ∈ kept ∨ x = e := by
  unfold pruneStep at h
  split at h
  · exact .inl h
  · rcases List.mem_append.mp h with h | h
    · exact .inl h
    · exact .inr (by simpa using h)

theorem kept_mem_pruneStep {kept : List (List String × List String)}
    {e x : List String × List String} (h : x ∈ kept) : x ∈ pruneStep kept e := by
  unfold pruneStep
  split
  · exact h
  · exact List.mem_append_left _ h

theorem pruneFold_kept_mem (l : List (List String × List String)) :
    ∀ kept x, x ∈ kept → x ∈ l.foldl pruneStep kept := by
  induction l with
  | nil => exact fun kept x h => h
  | cons e l ih =>
    intro kept x h
    exact ih _ _ (kept_mem_pruneStep h)

theorem pruneFold_mem (l : List (List String × List String)) :
    ∀ kept x, x ∈ l.foldl pruneStep kept → x ∈ kept ∨ x ∈ l := by
  induction l with
  | nil =>
    intro kept x h
    exact .inl h
  | cons e l ih =>
    intro kept x h
    rcases ih _ x h with h | h
    · rcases mem_pruneStep h with h | rfl
      · exact .inl h
      · exact .inr (List.mem_cons_self _ _)
    · exact .inr (List.mem_cons_of_mem _ h)

theorem pruneFold_covers (l : List (List String × List String)) :
    ∀ kept e, e ∈ l →
      ∃ k ∈ l.foldl pruneStep kept, coversRel k.1 e.1 = true := by
  induction l with
  | nil =>
    intro kept e h
    cases h
  | cons a l ih =>
    intro kept e he
    rw [List.foldl_cons]
    rcases List.mem_cons.mp he with rfl | he
    · by_cases hc : (kept.any fun k => coversRel k.1 e.1) = true
      · obtain ⟨k, hk, hck⟩ := List.any_eq_true.mp hc
        exact ⟨k, pruneFold_kept_mem l _ k (kept_mem_pruneStep hk), hck⟩
      · refine ⟨e, pruneFold_kept_mem l _ e ?_, coversRel_self _⟩
        unfold pruneStep
        rw [if_neg hc]
        exact List.mem_append_right _ (by simp)
    · exact ih _ e he

theorem pruneFold_antichain (l : List (List String × List String)) :
    ∀ kept,
      List.Sorted (fun a b => a.1.length ≤ b.1.length) l →
      (∀ a ∈ kept, ∀ b ∈ kept, a ≠ b → coversRel a.1 b.1 = false) →
      (∀ k ∈ kept, ∀ e ∈ l, k.1.length ≤ e.1.length) →
      ∀ a ∈ l.foldl pruneStep kept, ∀ b ∈ l.foldl pruneStep kept, a ≠ b →
        coversRel a.1 b.1 = false := by
  induction l with
  | nil =>
    intro kept _ hk _ a ha b hb hne
    exact hk a ha b hb hne
  | cons x l ih =>
    intro kept hs hk hlen
    rw [List.foldl_cons]
    rcases List.sorted_cons.mp hs with ⟨hx, hs'⟩
    by_cases hc : (kept.any fun k => coversRel k.1 x.1) = true
    · have hstep : pruneStep kept x = kept := by
        unfold pruneStep
        rw [if_pos hc]
      rw [hstep]
      exact ih kept hs' hk
        (fun k hkk e he => hlen k hkk e (List.mem_cons_of_mem _ he))
    · have hstep : pruneStep kept x = kept ++ [x] := by
        unfold pruneStep
        rw [if_neg hc]
      rw [hstep]
      have hcov : ∀ k ∈ kept, coversRel k.1 x.1 = false := by
        intro k hkk
        rcases h : coversRel k.1 x.1 with _ | _
        · rfl
        · exact absurd (List.any_eq_true.mpr ⟨k, hkk, h⟩) hc
      apply ih (kept ++ [x]) hs'
      · intro a ha b hb hne
        rcases List.mem_append.mp ha with ha | ha <;>
          rcases List.mem_append.mp hb with hb | hb
        · exact hk a ha b hb hne
        · have hbx : b = x := by simpa using hb
          rw [hbx]
          exact hcov a ha
        · have hax : a = x := by simpa using ha
          rw [hax]
          have hlb : b.1.length ≤ x.1.length :=
            hlen b hb x (List.mem_cons_self _ _)
          have h1 : (b.1 == x.1) = false := by
            rw [beq_eq_false_iff_ne]
            intro hbe
            have hcb := hcov b hb
            simp [coversRel, hbe] at hcb
          have h2 : decide (x.1.length < b.1.length) = false := by
            simp [Nat.not_lt.mpr hlb]
          simp only [coversRel, h1, h2]
          simp
        · have hax : a = x := by simpa using ha
          have hbx : b = x := by simpa using hb
          exact absurd (hax.trans hbx.symm) hne
      · intro k hkk e he
        rcases List.mem_append.mp hkk with hkk | hkk
        · exact hlen k hkk e (List.mem_cons_of_mem _ he)
        · have hkx : k = x := by simpa using hkk
          rw [hkx]
          exact hx e he

instance : IsTotal (List String × List String)
    fun a b => a.1.length ≤ b.1.length :=
  ⟨fun a b => Nat.le_total _ _⟩

instance : IsTrans (List String × List String)
    fun a b => a.1.length ≤ b.1.length :=
  ⟨fun _ _ _ => Nat.le_trans⟩

theorem delete_orphan_paths_eq (env : DelEnv) (root : List String)
    (reqs : List ReqPath) :
    delete_orphan_paths env root reqs =
      (⟨((deletionOrder env root reqs).map fun e => (stepDelta env e).1).sum +
          ((deletionOrder env root reqs).map fun e => (stepDelta env e).2.1).sum,
        ((deletionOrder env root reqs).map fun e => (stepDelta env e).1).sum,
        ((deletionOrder env root reqs).map fun e => (stepDelta env e).2.1).sum,
        (reqs.filter fun rel => badRequest env root rel).length +
          ((deletionOrder env root reqs).map fun e => (stepDelta env e).2.2.1).sum,
        (deletionOrder env root reqs).filterMap fun e => (stepDelta env e).2.2.2.1⟩,
      (deletionOrder env root reqs).filterMap fun e => (stepDelta env e).2.2.2.2) := by
  simp only [delete_orphan_paths]
  rw [deleteStep_foldl]
  simp

/-- C5.  `delete_orphan_paths`: requests that are absolute, contain `..`,
do not exist, or canonicalize outside the target root are skipped (and the
deletion loop additionally skips entries that vanished in between);
everything actually removed is under the canonical target root and stems
from a request that passed all four checks; the pruned deletion list is an
antichain under the cover relation yet still covers every screened
request; and the files/dirs counters are exactly the sums of the
per-removal snapshot contributions (a deleted directory contributing its
descendants plus itself exactly once). -/
theorem delete_orphans_containment_and_counts
    (env : DelEnv) (root : List String) (reqs : List ReqPath) :
    (delete_orphan_paths env root reqs).1.skipped_count =
      (reqs.filter fun rel => badRequest env root rel).length +
        ((deletionOrder env root reqs).filter
          fun e => decide (env.symlinkMeta e.2 = .notFound)).length ∧
    (∀ pb ∈ (delete_orphan_paths env root reqs).2,
      pathStartsWith root pb.1 = true ∧
      ∃ rel ∈ reqs, badRequest env root rel = false ∧
        pb.1 = env.canonicalize (root ++ relNames rel)) ∧
    (∀ a ∈ reducedTargets env root reqs, ∀ b ∈ reducedTargets env root reqs,
      a ≠ b → coversRel a.1 b.1 = false) ∧
    (∀ e ∈ screenedTargets env root reqs,
      ∃ k ∈ reducedTargets env root reqs, coversRel k.1 e.1 = true) ∧
    (delete_orphan_paths env root reqs).1.deleted_files_count =
      ((delete_orphan_paths env root reqs).2.map (contribFiles env)).sum ∧
    (delete_orphan_paths env root reqs).1.deleted_dirs_count =
      ((delete_orphan_paths env root reqs).2.map (contribDirs env)).sum := by
  rw [delete_orphan_paths_eq]
  refine ⟨?_, ?_, ?_, ?_, ?_, ?_⟩
  · have hmap : ((deletionOrder env root reqs).map
        fun e => (stepDelta env e).2.2.1) =
        (deletionOrder env root reqs).map
          fun e => if env.symlinkMeta e.2 = .notFound then 1 else 0 :=
      List.map_congr_left fun e _ => stepDelta_skipped env e
    rw [hmap]
    exact congrArg (_ + ·)
      (sum_ite_eq_length_filter
        (fun e : List String × List String =>
          env.symlinkMeta e.2 = MetaResult.notFound)
        (deletionOrder env root reqs))
  · intro pb hpb
    rw [List.mem_filterMap] at hpb
    obtain ⟨e, heL, hdel⟩ := hpb
    have hcanon : pb.1 = e.2 := stepDelta_removed_canonical env hdel
    have he1 : e ∈ reducedTargets env root reqs := by
      have h0 := heL
      unfold deletionOrder at h0
      simpa using h0
    have he2 : e ∈ screenedTargets env root reqs := by
      have h0 : e ∈ List.foldl pruneStep []
          (List.insertionSort (fun a b => a.1.length ≤ b.1.length)
            (screenedTargets env root reqs)) := by
        unfold reducedTargets pruneCovered at he1
        exact he1
      rcases pruneFold_mem _ _ _ h0 with h1 | h1
      · cases h1
      · simpa using h1
    unfold screenedTargets at he2
    rw [List.mem_filterMap] at he2
    obtain ⟨rel, hrel, hsome⟩ := he2
    by_cases hbad : badRequest env root rel = true
    · rw [if_pos hbad] at hsome
      cases hsome
    · rw [if_neg hbad] at hsome
      have hbf : badRequest env root rel = false := by
        simpa using hbad
      cases hsome
      refine ⟨?_, rel, hrel, hbf, hcanon⟩
      rw [hcanon]
      rcases h : pathStartsWith root (env.canonicalize (root ++ relNames rel)) with _ | _
      · exfalso
        have hbt : badRequest env root rel = true := by
          unfold badRequest
          rw [h]
          simp
        rw [hbt] at hbf
        cases hbf
      · rfl
  · have hanti := pruneFold_antichain
      (List.insertionSort (fun a b => a.1.length ≤ b.1.length)
        (screenedTargets env root reqs)) []
      (List.sorted_insertionSort _ _)
      (by intro a ha; cases ha)
      (by intro k hk; cases hk)
    intro a ha b hb hne
    have ha' : a ∈ List.foldl pruneStep []
        (List.insertionSort (fun a b => a.1.length ≤ b.1.length)
          (screenedTargets env root reqs)) := by
      unfold reducedTargets pruneCovered at ha
      exact ha
    have hb' : b ∈ List.foldl pruneStep []
        (List.insertionSort (fun a b => a.1.length ≤ b.1.length)
          (screenedTargets env root reqs)) := by
      unfold reducedTargets pruneCovered at hb
      exact hb
    exact hanti a ha' b hb' hne
  · intro e he
    obtain ⟨k, hk, hck⟩ := pruneFold_covers
      (List.insertionSort (fun a b => a.1.length ≤ b.1.length)
        (screenedTargets env root reqs)) [] e (by simpa using he)
    refine ⟨k, ?_, hck⟩
    unfold reducedTargets pruneCovered
    exact hk
  · rw [sum_match_over_filterMap]
    exact congrArg List.sum
      (List.map_congr_left fun e _ => stepDelta_files env e)
  · rw [sum_match_over_filterMap]
    exact congrArg List.sum
      (List.map_congr_left fun e _ => stepDelta_dirs env e)

/-! ## Directory scanner exclusion patterns (`read_directory`)

`rustTrim` models Rust `str::trim` (whitespace stripped from both ends;
the ASCII whitespace fragment suffices for every pattern considered
here), `strStartsWith` models `str::starts_with`, and `splitPatternComps`
models splitting a glob pattern at `/` separators.  Glob matching itself
is the behaviour of the external `globset` crate; `compMatch` and
`globSegMatch` model the fragment the specification relies on — literal
characters, `*`/`?` within one component, and a whole-component `**`
crossing any number of components. -/

def rustTrim (s : String) : String :=
  ⟨((s.data.dropWhile Char.isWhitespace).reverse.dropWhile
    Char.isWhitespace).reverse⟩

def strStartsWith (s pre : String) : Bool :=
  pre.data.isPrefixOf s.data

def splitOnChar (sep : Char) : List Char → List (List Char)
  | [] => [[]]
  | c :: rest =>
    let r := splitOnChar sep rest
    if c == sep then [] :: r
    else
      match r with
      | [] => [[c]]
      | h :: t => (c :: h) :: t

def splitPatternComps (p : String) : List String :=
  (splitOnChar '/' p.data).map fun cs => ⟨cs⟩

def MAX_PATTERN_LENGTH : Nat := 255

def MAX_PATTERN_COUNT : Nat := 100

/-- One iteration of the glob-set construction loop of `read_directory`:
skip empty trimmed patterns, reject over-long ones, add the trimmed
pattern, and additionally add `**/<pattern>` when the pattern starts with
neither `/` nor `**/`.  (`Glob::new` syntax validation is modelled as
total: the matcher below accepts every pattern string.) -/
def addPatternStep (acc : Except String (List String)) (pat : String) :
    Except String (List String) :=
  match acc with
  | .error e => .error e
  | .ok globs =>
    let trimmed := rustTrim pat
    if trimmed = "" then .ok globs
    else if utf8Len trimmed.data > MAX_PATTERN_LENGTH then
      .error "Exclusion pattern too long"
    else if !strStartsWith trimmed "/" && !strStartsWith trimmed "**/" then
      .ok (globs ++ [trimmed, "**/" ++ trimmed])
    else .ok (globs ++ [trimmed])

/-- The glob strings contributed by one raw pattern. -/
def patternAdditions (pat : String) : List String :=
  if rustTrim pat = "" then []
  else if !strStartsWith (rustTrim pat) "/" &&
      !strStartsWith (rustTrim pat) "**/" then
    [rustTrim pat, "**/" ++ rustTrim pat]
  else [rustTrim pat]

/-- The glob-set construction of `read_directory`: pattern-count check,
then the per-pattern loop. -/
def buildGlobPatterns (patterns : List String) :
    Except String (List String) :=
  if patterns.length > MAX_PATTERN_COUNT then
    .error "Too many exclusion patterns"
  else patterns.foldl addPatternStep (.ok [])

/-- Matching one glob component against one path component: `*` matches
any run of characters within the component, `?` one character, anything
else itself.  The `fuel` argument makes the recursion structural (hence
kernel-computable); `compMatch` supplies fuel that strictly dominates
every recursive path. -/
def compMatchAux : Nat → List Char → List Char → Bool
  | 0, _, _ => false
  | fuel + 1, p, s =>
    match p, s with
    | [], [] => true
    | '*' :: ps, s2 =>
      compMatchAux fuel ps s2 ||
        (match s2 with
          | [] => false
          | _ :: rest => compMatchAux fuel ('*' :: ps) rest)
    | '?' :: ps, _ :: rest => compMatchAux fuel ps rest
    | c :: ps, d :: rest => c == d && compMatchAux fuel ps rest
    | _ :: _, [] => false
    | [], _ :: _ => false

def compMatch (p s : List Char) : Bool :=
  compMatchAux (p.length + s.length + 1) p s

/-- Matching a component-split glob against a relative path: a `**`
component matches any number of path components.  Fuelled like
`compMatchAux`. -/
def globSegMatchAux : Nat → List String → List String → Bool
  | 0, _, _ => false
  | fuel + 1, p, s =>
    match p, s with
    | [], [] => true
    | "**" :: ps, segs =>
      globSegMatchAux fuel ps segs ||
        (match segs with
          | [] => false
          | _ :: rest => globSegMatchAux fuel ("**" :: ps) rest)
    | p1 :: ps, seg :: rest =>
      compMatch p1.data seg.data && globSegMatchAux fuel ps rest
    | _ :: _, [] => false
    | [], _ :: _ => false

def globSegMatch (p s : List String) : Bool :=
  globSegMatchAux (p.length + s.length + 1) p s

/-- `GlobSet::is_match` over the built set. -/
def globSetMatch (globs : List String) (rel : List String) : Bool :=
  globs.any fun g => globSegMatch (splitPatternComps g) rel

mutual
/-- A directory tree (mutually defined with its child list so that the
walk below is structurally recursive): name, `is_file` flag, children. -/
inductive FsTree where
  | node (name : String) (isFile : Bool) (children : FsForest)
/-- A list of sibling directory entries. -/
inductive FsForest where
  | leaf
  | grow (t : FsTree) (ts : FsForest)
end

mutual
/-- The filtered walk of `read_directory` at one entry: an entry whose
relative path matches the glob set is skipped and, if a directory, never
entered (`filter_entry`); a surviving entry is yielded with its relative
path and its children are walked. -/
def walkTree (globs : List String) (pre : List String) :
    FsTree → List (List String × Bool)
  | .node name isFile children =>
    if globSetMatch globs (pre ++ [name]) then []
    else (pre ++ [name], isFile) :: walkForest globs (pre ++ [name]) children

/-- The filtered walk over a sibling list. -/
def walkForest (globs : List String) (pre : List String) :
    FsForest → List (List String × Bool)
  | .leaf => []
  | .grow t ts => walkTree globs pre t ++ walkForest globs pre ts
end

/-- Embedding of `read_directory`, restricted to the pattern handling and
the filtered walk (metadata reading plays no role in the claim: each
record keeps its relative path and `is_file` flag; the root itself is
skipped by the caller loop and is not an entry). -/
def read_directory (exclude_patterns : List String) (tree : FsForest) :
    Except String (List (List String × Bool)) :=
  match buildGlobPatterns exclude_patterns with
  | .error e => .error e
  | .ok globs => .ok (walkForest globs [] tree)

/-! ## Helper lemmas about the scanner exclusion set -/

theorem addPatternStep_error (e : String) (l : List String) :
    l.foldl addPatternStep (.error e) = .error e := by
  induction l with
  | nil => rfl
  | cons p l ih => exact ih

theorem buildGlob_fold (patterns : List String) :
    ∀ acc res, patterns.foldl addPatternStep (.ok acc) = .ok res →
      res = acc ++ patterns.flatMap patternAdditions := by
  induction patterns with
  | nil =>
    intro acc res h
    cases h
    simp
  | cons p rest ih =>
    intro acc res h
    rw [List.foldl_cons] at h
    by_cases h1 : rustTrim p = ""
    · have hstep : addPatternStep (.ok acc) p = .ok acc := by
        simp [addPatternStep, h1]
      rw [hstep] at h
      rw [ih acc res h]
      simp [patternAdditions, h1]
    · by_cases h2 : utf8Len (rustTrim p).data > MAX_PATTERN_LENGTH
      · have hstep : addPatternStep (.ok acc) p =
            .error "Exclusion pattern too long" := by
          simp [addPatternStep, h1, h2]
        rw [hstep, addPatternStep_error] at h
        cases h
      · by_cases h3 : (!strStartsWith (rustTrim p) "/" &&
            !strStartsWith (rustTrim p) "**/") = true
        · have hstep : addPatternStep (.ok acc) p =
              .ok (acc ++ [rustTrim p, "**/" ++ rustTrim p]) := by
            simp [addPatternStep, h1, h2, h3]
          rw [hstep] at h
          rw [ih _ res h]
          simp [patternAdditions, h1, h2, h3]
        · have h3f : (!strStartsWith (rustTrim p) "/" &&
              !strStartsWith (rustTrim p) "**/") = false := by
            simpa using h3
          have hstep : addPatternStep (.ok acc) p =
              .ok (acc ++ [rustTrim p]) := by
            simp [addPatternStep, h1, h2, h3f]
          rw [hstep] at h
          rw [ih _ res h]
          simp [patternAdditions, h1, h2, h3f]

/-- The glob set built from the single bare pattern `node_modules`. -/
def globsNM : List String := ["node_modules", "**/node_modules"]

theorem buildGlob_nm : buildGlobPatterns ["node_modules"] = .ok globsNM := by
  rfl

theorem splitPatternComps_dstar_nm :
    splitPatternComps "**/node_modules" = ["**", "node_modules"] := by
  decide

theorem globSegAux_descend_nm :
    ∀ (rel : List String) (fuel : Nat), rel.length + 2 ≤ fuel →
      rel.getLast? = some "node_modules" →
      globSegMatchAux fuel ["**", "node_modules"] rel = true := by
  intro rel
  induction rel with
  | nil =>
    intro fuel _ hlast
    cases hlast
  | cons x rest ih =>
    intro fuel hfuel hlast
    obtain ⟨f, rfl⟩ : ∃ f, fuel = f + 1 := ⟨fuel - 1, by omega⟩
    rcases rest with _ | ⟨y, rest2⟩
    · have hx : x = "node_modules" := by simpa using hlast
      subst hx
      obtain ⟨g, rfl⟩ : ∃ g, f = g + 2 := ⟨f - 2, by simp at hfuel; omega⟩
      have e1 : globSegMatchAux (g + 2 + 1) ["**", "node_modules"]
            ["node_modules"] =
          (globSegMatchAux (g + 2) ["node_modules"] ["node_modules"] ||
            globSegMatchAux (g + 2) ["**", "node_modules"] []) := rfl
      have e2 : globSegMatchAux (g + 2) ["node_modules"] ["node_modules"] =
          (compMatch "node_modules".data "node_modules".data &&
            globSegMatchAux (g + 1) [] []) := rfl
      have e3 : globSegMatchAux (g + 1) ([] : List String)
          ([] : List String) = true := rfl
      have e4 : compMatch "node_modules".data "node_modules".data = true := by
        decide
      rw [e1, e2, e3, e4]
      simp
    · have hlast2 : (y :: rest2).getLast? = some "node_modules" := by
        simpa using hlast
      have hlen : (y :: rest2).length + 2 ≤ f := by
        simp at hfuel ⊢
        omega
      have htail := ih f hlen hlast2
      simp only [globSegMatchAux]
      rw [htail]
      simp

theorem globSeg_descend_nm (rel : List String)
    (hlast : rel.getLast? = some "node_modules") :
    globSegMatch ["**", "node_modules"] rel = true := by
  unfold globSegMatch
  exact globSegAux_descend_nm rel _ (by simp; omega) hlast

theorem globSetMatch_nm_tail (pre : List String) :
    globSetMatch globsNM (pre ++ ["node_modules"]) = true := by
  unfold globSetMatch
  apply List.any_eq_true.mpr
  refine ⟨"**/node_modules", by simp [globsNM], ?_⟩
  rw [splitPatternComps_dstar_nm]
  exact globSeg_descend_nm _ (by simp)

mutual
theorem walkTree_nm :
    ∀ (pre : List String) (t : FsTree), "node_modules" ∉ pre →
      ∀ r ∈ walkTree globsNM pre t, "node_modules" ∉ r.1
  | pre, .node name isFile children, h => by
    intro r hr
    simp only [walkTree] at hr
    by_cases hm : globSetMatch globsNM (pre ++ [name]) = true
    · rw [if_pos hm] at hr
      cases hr
    · rw [if_neg hm] at hr
      have hname : name ≠ "node_modules" := by
        intro hn
        subst hn
        exact hm (globSetMatch_nm_tail pre)
      have hpre2 : "node_modules" ∉ pre ++ [name] := by
        intro hc
        rcases List.mem_append.mp hc with hc | hc
        · exact h hc
        · simp at hc
          exact hname hc.symm
      rcases List.mem_cons.mp hr with hr | hr
      · rw [hr]
        exact hpre2
      · exact walkForest_nm (pre ++ [name]) children hpre2 r hr

theorem walkForest_nm :
    ∀ (pre : List String) (ts : FsForest), "node_modules" ∉ pre →
      ∀ r ∈ walkForest globsNM pre ts, "node_modules" ∉ r.1
  | _, .leaf, _ => by
    intro r hr
    simp [walkForest] at hr
  | pre, .grow t ts, h => by
    intro r hr
    simp only [walkForest] at hr
    rcases List.mem_append.mp hr with hr | hr
    · exact walkTree_nm pre t h r hr
    · exact walkForest_nm pre ts h r hr
end

/-- C6.  The glob set built by `read_directory` consists, per non-empty
trimmed pattern `p`, of `p` itself plus `**/p` exactly when `p` starts
with neither `/` nor `**/`; consequently the bare pattern `node_modules`
prunes every `node_modules` directory at every depth: no scanned record's
relative path contains a `node_modules` component. -/
theorem exclusion_patterns_anchor_and_prune
    (patterns globs : List String)
    (hb : buildGlobPatterns patterns = .ok globs) :
    globs = patterns.flatMap patternAdditions ∧
    (∀ p ∈ patterns, rustTrim p ≠ "" →
      rustTrim p ∈ globs ∧
      (("**/" ++ rustTrim p) ∈ patternAdditions p ↔
        ¬(strStartsWith (rustTrim p) "/" = true ∨
          strStartsWith (rustTrim p) "**/" = true))) ∧
    (∀ (forest : FsForest) (recs : List (List String × Bool)),
      read_directory ["node_modules"] forest = .ok recs →
      ∀ r ∈ recs, "node_modules" ∉ r.1) := by
  have hflat : globs = patterns.flatMap patternAdditions := by
    unfold buildGlobPatterns at hb
    by_cases hcnt : patterns.length > MAX_PATTERN_COUNT
    · rw [if_pos hcnt] at hb
      cases hb
    · rw [if_neg hcnt] at hb
      simpa using buildGlob_fold patterns [] globs hb
  refine ⟨hflat, ?_, ?_⟩
  · intro p hp hne
    have hmem : rustTrim p ∈ patternAdditions p := by
      unfold patternAdditions
      rw [if_neg hne]
      by_cases h3 : (!strStartsWith (rustTrim p) "/" &&
          !strStartsWith (rustTrim p) "**/") = true
      · rw [if_pos h3]
        simp
      · rw [if_neg h3]
        simp
    constructor
    · rw [hflat]
      exact List.mem_flatMap.mpr ⟨p, hp, hmem⟩
    · unfold patternAdditions
      rw [if_neg hne]
      by_cases h3 : (!strStartsWith (rustTrim p) "/" &&
          !strStartsWith (rustTrim p) "**/") = true
      · rw [if_pos h3]
        simp only [Bool.and_eq_true, Bool.not_eq_true'] at h3
        simp [h3.1, h3.2]
      · rw [if_neg h3]
        simp only [Bool.and_eq_true, Bool.not_eq_true'] at h3
        constructor
        · intro hc
          have hc2 : "**/" ++ rustTrim p = rustTrim p := by simpa using hc
          have hlen := congrArg String.length hc2
          rw [String.length_append] at hlen
          have h3eq : ("**/" : String).length = 3 := rfl
          rw [h3eq] at hlen
          omega
        · intro hc
          exfalso
          apply hc
          by_cases ha : strStartsWith (rustTrim p) "/" = true
          · exact .inl ha
          · refine .inr ?_
            rcases hb2 : strStartsWith (rustTrim p) "**/" with _ | _
            · exact absurd (by simp [ha, hb2]) h3
            · rfl
  · intro forest recs hrec r hr
    unfold read_directory at hrec
    rw [buildGlob_nm] at hrec
    cases hrec
    exact walkForest_nm [] forest (by simp) r hr

/-- Witness for the C6 theorem: the single bare pattern `node_modules`
yields the anchored and descendant globs. -/
theorem exclusion_patterns_anchor_and_prune_witness :
    buildGlobPatterns ["node_modules"] = .ok globsNM ∧
    (globsNM = (["node_modules"] : List String).flatMap patternAdditions ∧
    (∀ p ∈ (["node_modules"] : List String), rustTrim p ≠ "" →
      rustTrim p ∈ globsNM ∧
      (("**/" ++ rustTrim p) ∈ patternAdditions p ↔
        ¬(strStartsWith (rustTrim p) "/" = true ∨
          strStartsWith (rustTrim p) "**/" = true))) ∧
    (∀ (forest : FsForest) (recs : List (List String × Bool)),
      read_directory ["node_modules"] forest = .ok recs →
      ∀ r ∈ recs, "node_modules" ∉ r.1)) :=
  ⟨buildGlob_nm,
    exclusion_patterns_anchor_and_prune ["node_modules"] globsNM buildGlob_nm⟩

/-! ## Conflict item preview (`get_conflict_item_preview`,
`read_text_preview`, `preview_kind_for_path`)

The session/item lookup of `get_conflict_item_preview` only resolves the
two absolute paths; the embedding starts from those paths.  File reads
are abstracted by a `FileReadOutcome`: the open can fail, the single
`read` call can fail, or it returns some bytes (at most the buffer size;
longer environments are clamped by the buffer).  UTF-8 validity of the
returned prefix (`std::str::from_utf8`) is modelled by the executable
`validUtf8` checker below. -/

def rustExtension (path : String) : Option String :=
  let name := (splitOnChar '/' path.data).getLastD []
  match splitOnChar '.' name with
  | [] => none
  | [_] => none
  | first :: rest =>
    if first = [] ∧ rest.length = 1 then none
    else some ⟨rest.getLastD []⟩

def asciiToLower (c : Char) : Char :=
  if 'A' ≤ c ∧ c ≤ 'Z' then Char.ofNat (c.toNat + 32) else c

def asciiLower (s : String) : String :=
  ⟨s.data.map asciiToLower⟩

/-- Embedding of `preview_kind_for_path`: classify by the
ASCII-lowercased extension of the path's file name. -/
def preview_kind_for_path (path : String) : String :=
  match (rustExtension path).map asciiLower with
  | none => "other"
  | some ext =>
    if ["png", "jpg", "jpeg", "gif", "bmp", "webp", "tif", "tiff",
        "heic"].contains ext then "image"
    else if ["mp4", "mov", "m4v", "avi", "mkv", "webm"].contains ext then
      "video"
    else if ["txt", "md", "json", "yaml", "yml", "toml", "xml", "log", "rs",
        "ts", "tsx", "js", "jsx", "css", "html", "csv", "ini"].contains ext then
      "text"
    else if ["pdf", "doc", "docx", "ppt", "pptx", "xls", "xlsx", "pages",
        "numbers", "key"].contains ext then "document"
    else "other"

def isUtf8Cont (b : Nat) : Bool := 0x80 ≤ b && b ≤ 0xBF

/-- Standard UTF-8 validity of a byte sequence (RFC 3629 table), as
checked by `std::str::from_utf8`. -/
def validUtf8 : List Nat → Bool
  | [] => true
  | b :: rest =>
    if b ≤ 0x7F then validUtf8 rest
    else if 0xC2 ≤ b && b ≤ 0xDF then
      match rest with
      | c1 :: r => isUtf8Cont c1 && validUtf8 r
      | [] => false
    else if b = 0xE0 then
      match rest with
      | c1 :: c2 :: r =>
        (0xA0 ≤ c1 && c1 ≤ 0xBF) && (isUtf8Cont c2 && validUtf8 r)
      | _ => false
    else if (0xE1 ≤ b && b ≤ 0xEC) || b = 0xEE || b = 0xEF then
      match rest with
      | c1 :: c2 :: r => isUtf8Cont c1 && (isUtf8Cont c2 && validUtf8 r)
      | _ => false
    else if b = 0xED then
      match rest with
      | c1 :: c2 :: r =>
        (0x80 ≤ c1 && c1 ≤ 0x9F) && (isUtf8Cont c2 && validUtf8 r)
      | _ => false
    else if b = 0xF0 then
      match rest with
      | c1 :: c2 :: c3 :: r =>
        (0x90 ≤ c1 && c1 ≤ 0xBF) &&
          (isUtf8Cont c2 && (isUtf8Cont c3 && validUtf8 r))
      | _ => false
    else if 0xF1 ≤ b && b ≤ 0xF3 then
      match rest with
      | c1 :: c2 :: c3 :: r =>
        isUtf8Cont c1 && (isUtf8Cont c2 && (isUtf8Cont c3 && validUtf8 r))
      | _ => false
    else if b = 0xF4 then
      match rest with
      | c1 :: c2 :: c3 :: r =>
        (0x80 ≤ c1 && c1 ≤ 0x8F) &&
          (isUtf8Cont c2 && (isUtf8Cont c3 && validUtf8 r))
      | _ => false
    else false

inductive FileReadOutcome where
  | openFail
  | readFail
  | readOk (bytes : List Nat)
deriving DecidableEq, Repr

/-- Embedding of `read_text_preview`: open, read once into a buffer of
`max_bytes + 1` bytes, mark truncation when strictly more than
`max_bytes` were read, and UTF-8 decode the first `max_bytes` bytes. -/
def read_text_preview (outcome : FileReadOutcome) (max_bytes : Nat) :
    Option (List Nat) × Bool :=
  match outcome with
  | .openFail => (none, false)
  | .readFail => (none, false)
  | .readOk bytes =>
    let read_count := min bytes.length (max_bytes + 1)
    let truncated := decide (read_count > max_bytes)
    let content := bytes.take (min read_count max_bytes)
    if validUtf8 content then (some content, truncated) else (none, false)

structure ConflictPreviewPayload where
  kind : String
  source_text : Option (List Nat)
  target_text : Option (List Nat)
  source_truncated : Bool
  target_truncated : Bool
deriving DecidableEq, Repr

/-- Embedding of the preview computation of `get_conflict_item_preview`:
clamp the caller's byte cap to `[1 KiB, 512 KiB]` (default 64 KiB),
classify the source path, and for text previews read both sides,
downgrading the kind to `other` when either side's text is absent. -/
def get_conflict_item_preview (sourcePath targetPath : String)
    (maxBytes? : Option Nat) (srcOutcome tgtOutcome : FileReadOutcome) :
    ConflictPreviewPayload :=
  let maxBytes := min (max (maxBytes?.getD (64 * 1024)) 1024) (512 * 1024)
  let kind0 := preview_kind_for_path sourcePath
  if kind0 = "text" then
    let src := read_text_preview srcOutcome maxBytes
    let tgt := read_text_preview tgtOutcome maxBytes
    ⟨if src.1 = none ∨ tgt.1 = none then "other" else kind0,
      src.1, tgt.1, src.2, tgt.2⟩
  else ⟨kind0, none, none, false, false⟩

/-- C10.  For a source path classified as text, the preview kind is
downgraded to `other` exactly when either side's preview text is absent;
a side's text is absent exactly when the file could not be opened, the
read failed, or the read prefix is not valid UTF-8; and a side's
truncated flag can only be set when strictly more than the clamped
`max_bytes` were read from that file. -/
theorem preview_downgrade_and_truncation
    (sourcePath targetPath : String) (maxBytes? : Option Nat)
    (srcOutcome tgtOutcome : FileReadOutcome) (mb : Nat)
    (hkind : preview_kind_for_path sourcePath = "text")
    (hmb : mb = min (max (maxBytes?.getD (64 * 1024)) 1024) (512 * 1024)) :
    ((get_conflict_item_preview sourcePath targetPath maxBytes? srcOutcome
        tgtOutcome).kind = "other" ↔
      ((read_text_preview srcOutcome mb).1 = none ∨
        (read_text_preview tgtOutcome mb).1 = none)) ∧
    (∀ o : FileReadOutcome, (read_text_preview o mb).1 = none ↔
      (o = .openFail ∨ o = .readFail ∨
        ∃ bytes, o = .readOk bytes ∧
          validUtf8 (bytes.take (min (min bytes.length (mb + 1)) mb)) =
            false)) ∧
    ((get_conflict_item_preview sourcePath targetPath maxBytes? srcOutcome
        tgtOutcome).source_truncated = true →
      ∃ bytes, srcOutcome = .readOk bytes ∧ mb < bytes.length) ∧
    ((get_conflict_item_preview sourcePath targetPath maxBytes? srcOutcome
        tgtOutcome).target_truncated = true →
      ∃ bytes, tgtOutcome = .readOk bytes ∧ mb < bytes.length) := by
  subst hmb
  set MB := min (max (maxBytes?.getD (64 * 1024)) 1024) (512 * 1024) with hMB
  have hpayload : get_conflict_item_preview sourcePath targetPath maxBytes?
      srcOutcome tgtOutcome =
      ⟨if (read_text_preview srcOutcome MB).1 = none ∨
          (read_text_preview tgtOutcome MB).1 = none then "other"
        else "text",
        (read_text_preview srcOutcome MB).1,
        (read_text_preview tgtOutcome MB).1,
        (read_text_preview srcOutcome MB).2,
        (read_text_preview tgtOutcome MB).2⟩ := by
    simp only [get_conflict_item_preview]
    rw [← hMB, hkind]
    rw [if_pos rfl]
  have htrunc : ∀ o : FileReadOutcome,
      (read_text_preview o MB).2 = true →
      ∃ bytes, o = .readOk bytes ∧ MB < bytes.length := by
    intro o h
    cases o with
    | openFail => simp [read_text_preview] at h
    | readFail => simp [read_text_preview] at h
    | readOk bytes =>
      refine ⟨bytes, rfl, ?_⟩
      simp only [read_text_preview] at h
      by_cases hv : validUtf8
          (bytes.take (min (min bytes.length (MB + 1)) MB)) = true
      · rw [if_pos hv] at h
        simp at h
        omega
      · rw [if_neg hv] at h
        simp at h
  refine ⟨?_, ?_, ?_, ?_⟩
  · rw [hpayload]
    by_cases hcond : ((read_text_preview srcOutcome MB).1 = none ∨
        (read_text_preview tgtOutcome MB).1 = none)
    · rw [if_pos hcond]
      exact iff_of_true rfl hcond
    · rw [if_neg hcond]
      exact iff_of_false
        (fun h => (by decide : ¬ ("text" : String) = "other") h) hcond
  · intro o
    cases o with
    | openFail => simp [read_text_preview]
    | readFail => simp [read_text_preview]
    | readOk bytes =>
      simp only [read_text_preview]
      have hmineq : min (min bytes.length (MB + 1)) MB =
          min bytes.length MB := by
        omega
      rw [hmineq]
      by_cases hv : validUtf8 (bytes.take (min bytes.length MB)) = true
      · rw [if_pos hv]
        simp [hv, hmineq]
      · rw [if_neg hv]
        simp only [Bool.not_eq_true] at hv
        simp [hv, hmineq]
  · rw [hpayload]
    exact htrunc srcOutcome
  · rw [hpayload]
    exact htrunc tgtOutcome


/-- Witness for the C10 theorem: a `.txt` source path, a two-byte ASCII
source file, an unopenable target file, and the default byte cap. -/
theorem preview_downgrade_and_truncation_witness :
    preview_kind_for_path "a.txt" = "text" ∧
    (65536 : Nat) =
      min (max ((none : Option Nat).getD (64 * 1024)) 1024) (512 * 1024) ∧
    (((get_conflict_item_preview "a.txt" "b.txt" none
        (.readOk [104, 105]) .openFail).kind = "other" ↔
      ((read_text_preview (.readOk [104, 105]) 65536).1 = none ∨
        (read_text_preview .openFail 65536).1 = none)) ∧
    (∀ o : FileReadOutcome, (read_text_preview o 65536).1 = none ↔
      (o = .openFail ∨ o = .readFail ∨
        ∃ bytes, o = .readOk bytes ∧
          validUtf8 (bytes.take (min (min bytes.length (65536 + 1)) 65536)) =
            false)) ∧
    ((get_conflict_item_preview "a.txt" "b.txt" none
        (.readOk [104, 105]) .openFail).source_truncated = true →
      ∃ bytes, (FileReadOutcome.readOk [104, 105]) = .readOk bytes ∧
        65536 < bytes.length) ∧
    ((get_conflict_item_preview "a.txt" "b.txt" none
        (.readOk [104, 105]) .openFail).target_truncated = true →
      ∃ bytes, FileReadOutcome.openFail = .readOk bytes ∧
        65536 < bytes.length)) :=
  ⟨by decide, by decide,
    preview_downgrade_and_truncation "a.txt" "b.txt" none
      (.readOk [104, 105]) .openFail 65536 (by decide) (by decide)⟩

end SyncWatcher
